import Mathlib

/-!
Shallow embedding of the View3D mesh core (s21::Model, s21::Polygon, the
transform commands of command.hpp, and the model manager) and proofs about it.

Conventions of the embedding:
* Text is modelled as `List Char`; a file as a `List (List Char)` of lines
  (the `getline` loop), wrapped in `Option` so that `none` models a file that
  could not be opened.
* C `float` values produced by parsing are modelled as exact rationals `ℚ`
  (floating-point rounding is abstracted away; no claim inspects rounding).
  Geometry (transforms, normalization) is modelled over the reals `ℝ`.
* `std::stoul` is modelled with explicit unsigned 64-bit wraparound
  (`% 2^64`), matching `unsigned long` on an LP64 platform.
* C++ exceptions are modelled by `Except String`.
-/

namespace View3D

/-- C `isspace` in the default locale: space, \t, \n, \v, \f, \r. -/
def isSpace (c : Char) : Bool :=
  c = ' ' ∨ c = '\t' ∨ c = '\n' ∨ c = '\x0b' ∨ c = '\x0c' ∨ c = '\r'

/-- Drop the leading whitespace of a character list (the `line.erase` of
leading `isspace` characters in `LoadFromFile`, and the whitespace skipping
of `sscanf`/`operator>>`). -/
def skipWs : List Char → List Char
  | [] => []
  | c :: cs => if isSpace c then skipWs cs else c :: cs

/-- Split a maximal run of leading decimal digits off a character list. -/
def takeDigits : List Char → List Char × List Char
  | [] => ([], [])
  | c :: cs =>
    if c.isDigit then
      let p := takeDigits cs
      (c :: p.1, p.2)
    else ([], c :: cs)

/-- Numeric value of a digit string (most significant digit first). -/
def digitsVal (ds : List Char) : ℕ :=
  ds.foldl (fun a c => 10 * a + (c.toNat - 48)) 0

/-- Value of a digit string read as a decimal fraction `0.d₁d₂…`. -/
def fracVal (ds : List Char) : ℚ :=
  (digitsVal ds : ℚ) / 10 ^ ds.length

/-- Optional sign of a C float subject sequence; returns the sign factor and
the remaining characters. -/
def scanSign (cs : List Char) : ℚ × List Char :=
  match cs with
  | [] => (1, [])
  | c :: rest =>
    if c = '-' then (-1, rest)
    else if c = '+' then (1, rest)
    else (1, c :: rest)

/-- Optional sign of an exponent part; returns the sign and the remaining
characters. -/
def scanExpSign (cs : List Char) : ℤ × List Char :=
  match cs with
  | [] => (1, [])
  | c :: rest =>
    if c = '-' then (-1, rest)
    else if c = '+' then (1, rest)
    else (1, c :: rest)

/-- Optional exponent part `([eE][+-]?digits)` of a C float subject sequence;
consumed only when well formed (longest-valid-prefix rule of `strtof`),
otherwise nothing is consumed and the exponent is 0. -/
def scanExp (cs : List Char) : ℤ × List Char :=
  match cs with
  | [] => (0, [])
  | c :: rest =>
    if c = 'e' ∨ c = 'E' then
      let sr := scanExpSign rest
      let dp := takeDigits sr.2
      if dp.1 = [] then (0, c :: rest) else (sr.1 * (digitsVal dp.1 : ℤ), dp.2)
    else (0, c :: rest)

/-- Optional fraction part `(.digits*)` of a C float subject sequence. -/
def scanFrac (cs : List Char) : List Char × List Char :=
  match cs with
  | [] => ([], [])
  | c :: rest => if c = '.' then takeDigits rest else ([], c :: rest)

/-- Hexadecimal digit, for `strtof`'s hexadecimal subject sequences. -/
def isHexDigit (c : Char) : Bool :=
  c.isDigit ∨ ('a' ≤ c ∧ c ≤ 'f') ∨ ('A' ≤ c ∧ c ≤ 'F')

/-- Value of one hexadecimal digit. -/
def hexDigitVal (c : Char) : ℕ :=
  if c.isDigit then c.toNat - 48
  else if 'a' ≤ c ∧ c ≤ 'f' then c.toNat - 87
  else c.toNat - 55

/-- Split a maximal run of leading hexadecimal digits off a character
list. -/
def takeHexDigits : List Char → List Char × List Char
  | [] => ([], [])
  | c :: cs =>
    if isHexDigit c then
      let p := takeHexDigits cs
      (c :: p.1, p.2)
    else ([], c :: cs)

/-- Numeric value of a hexadecimal digit string. -/
def hexVal (ds : List Char) : ℕ :=
  ds.foldl (fun a c => 16 * a + hexDigitVal c) 0

/-- Value of a hexadecimal digit string read as the fraction after the
hexadecimal point. -/
def hexFracVal (ds : List Char) : ℚ :=
  (hexVal ds : ℚ) / 16 ^ ds.length

/-- Case-insensitive match of a lowercase keyword (the `inf`/`infinity`/
`nan` forms of `strtof`): consume it and return the rest, `none` when the
input does not start with it. -/
def matchCI : List Char → List Char → Option (List Char)
  | [], cs => some cs
  | _ :: _, [] => none
  | p :: ps, c :: cs => if c.toLower = p then matchCI ps cs else none

/-- Characters allowed in a `nan(…)` payload. -/
def isNanChar (c : Char) : Bool := c.isAlphanum ∨ c = '_'

/-- Optional `(n-char-sequence)` payload after `nan`, consumed only when
the closing parenthesis is present. -/
def scanNanPayload (cs : List Char) : List Char :=
  match cs with
  | [] => []
  | c :: r =>
    if c = '(' then
      match r.dropWhile isNanChar with
      | [] => c :: r
      | d :: after => if d = ')' then after else c :: r
    else c :: r

/-- Optional binary exponent `([pP][+-]?digits)` of a hexadecimal float;
consumed only when well formed, otherwise nothing is consumed. -/
def scanPExp (cs : List Char) : ℤ × List Char :=
  match cs with
  | [] => (0, [])
  | c :: rest =>
    if c = 'p' ∨ c = 'P' then
      let sr := scanExpSign rest
      let dp := takeDigits sr.2
      if dp.1 = [] then (0, c :: rest) else (sr.1 * (digitsVal dp.1 : ℤ), dp.2)
    else (0, c :: rest)

/-- Optional hexadecimal fraction part `(.hexdigits*)`. -/
def scanHexFrac (cs : List Char) : List Char × List Char :=
  match cs with
  | [] => ([], [])
  | c :: rest => if c = '.' then takeHexDigits rest else ([], c :: rest)

/-- Whether a list starts with a hexadecimal digit. -/
def hexDigitHead : List Char → Bool
  | c :: _ => isHexDigit c
  | [] => false

/-- Whether the sign-stripped input starts a hexadecimal subject sequence:
`0x`/`0X` followed by a hex digit, or by a period and a hex digit. -/
def isHexPrefix : List Char → Bool
  | c0 :: c1 :: c2 :: rest =>
    if c0 = '0' ∧ (c1 = 'x' ∨ c1 = 'X') then
      if isHexDigit c2 then true
      else if c2 = '.' then hexDigitHead rest
      else false
    else false
  | _ => false

/-- Decimal magnitude of a float subject sequence
`(digits[.digits*]?|.digits…)([eE][+-]?digits)?`: the longest valid prefix
and its exact rational value; `none` when there is none. -/
def scanDecMagnitude (cs : List Char) : Option (ℚ × List Char) :=
  let ip := takeDigits cs
  let fp := scanFrac ip.2
  if ip.1 = [] ∧ fp.1 = [] then none
  else
    let ep := scanExp fp.2
    some (((digitsVal ip.1 : ℚ) + fracVal fp.1) * (10 : ℚ) ^ ep.1, ep.2)

/-- Hexadecimal magnitude after the `0x` prefix:
`hexdigits[.hexdigits*]?([pP][+-]?digits)?`, scaled by a power of 2. -/
def scanHexMagnitude (cs : List Char) : Option (ℚ × List Char) :=
  let ip := takeHexDigits cs
  let fp := scanHexFrac ip.2
  if ip.1 = [] ∧ fp.1 = [] then none
  else
    let ep := scanPExp fp.2
    some (((hexVal ip.1 : ℚ) + hexFracVal fp.1) * (2 : ℚ) ^ ep.1, ep.2)

/-- The unsigned part of one `%f` conversion — `strtof`'s subject sequence
without the sign: infinity (`inf`/`infinity`), NaN (`nan`/`nan(…)`),
hexadecimal (`0x…`), or decimal, longest valid prefix first.  IEEE
infinities and NaNs have no rational counterpart; their value is recorded
as 0, a placeholder no claim observes (the claims depend on parse success,
consumption, and finite values only). -/
def scanMagnitude (cs : List Char) : Option (ℚ × List Char) :=
  match matchCI ['i', 'n', 'f'] cs with
  | some restInf =>
    match matchCI ['i', 'n', 'i', 't', 'y'] restInf with
    | some r => some (0, r)
    | none => some (0, restInf)
  | none =>
    match matchCI ['n', 'a', 'n'] cs with
    | some restNan => some (0, scanNanPayload restNan)
    | none =>
      if isHexPrefix cs then scanHexMagnitude (cs.drop 2)
      else scanDecMagnitude cs

/-- Model of one `%f` conversion of `sscanf` (without its leading
whitespace skip): an optional sign, then the longest magnitude prefix of
the input; returns the exact rational value (with the inf/nan placeholder
of `scanMagnitude`) and the unconsumed rest, or `none` when no subject
sequence is present (a matching failure). -/
def scanFloat (cs : List Char) : Option (ℚ × List Char) :=
  let sp := scanSign cs
  match scanMagnitude sp.2 with
  | none => none
  | some (v, r) => some (sp.1 * v, r)

/-- Third `%f` conversion of `sscanf(line, "v %f %f %f", …)`: `s` is the
text after the second conversion, whitespace already skipped. -/
def sscanfAux3 (x y : ℚ) (s : List Char) : ℕ × (ℚ × ℚ × ℚ) :=
  match scanFloat s with
  | none => (2, (x, y, 0))
  | some (z, _) => (3, (x, y, z))

/-- Second `%f` conversion of `sscanf(line, "v %f %f %f", …)`. -/
def sscanfAux2 (x : ℚ) (s : List Char) : ℕ × (ℚ × ℚ × ℚ) :=
  match scanFloat s with
  | none => (1, (x, 0, 0))
  | some (y, r2) => sscanfAux3 x y (skipWs r2)

/-- First `%f` conversion of `sscanf(line, "v %f %f %f", …)`. -/
def sscanfAux1 (s : List Char) : ℕ × (ℚ × ℚ × ℚ) :=
  match scanFloat s with
  | none => (0, (0, 0, 0))
  | some (x, r1) => sscanfAux2 x (skipWs r1)

/-- Model of `sscanf(line, "v %f %f %f", &x, &y, &z)`: the number of `%f`
conversions successfully assigned (0–3) and the assigned values (0 where the
conversion did not happen; such values are never read by the caller). -/
def sscanfVFFF (cs : List Char) : ℕ × (ℚ × ℚ × ℚ) :=
  match cs with
  | [] => (0, (0, 0, 0))
  | c :: rest =>
    if c = 'v' then sscanfAux1 (skipWs rest) else (0, (0, 0, 0))

/-- Whitespace tokenization of a character list (`istringstream >> token`):
the maximal non-whitespace runs, in order. -/
def splitWsAux : List Char → List Char → List (List Char)
  | [], acc => if acc = [] then [] else [acc.reverse]
  | c :: cs, acc =>
    if isSpace c then
      if acc = [] then splitWsAux cs [] else acc.reverse :: splitWsAux cs []
    else splitWsAux cs (c :: acc)

/-- The whitespace-separated tokens of a character list. -/
def splitWs (cs : List Char) : List (List Char) := splitWsAux cs []

/-- Optional sign accepted by `strtoul`; returns whether the value must be
negated (unsigned wraparound) and the remaining characters. -/
def stoulSign (cs : List Char) : Bool × List Char :=
  match cs with
  | [] => (false, [])
  | c :: rest =>
    if c = '-' then (true, rest)
    else if c = '+' then (false, rest)
    else (false, c :: rest)

/-- Model of `std::stoul(t)` (base 10, 64-bit `unsigned long`): skip leading
whitespace, read an optional sign and a nonempty digit run (trailing
non-digit characters are ignored — `stoul` does not require full
consumption).  `none` models a thrown exception: `invalid_argument` when no
digits are found, `out_of_range` when the digit value exceeds
`ULONG_MAX = 2^64 − 1`.  A minus sign negates the value with unsigned
wraparound, as specified for `strtoul`. -/
def stoulTok (t : List Char) : Option ℕ :=
  let sp := stoulSign (skipWs t)
  let dp := takeDigits sp.2
  if dp.1 = [] then none
  else
    let v := digitsVal dp.1
    if 2 ^ 64 - 1 < v then none
    else some (if sp.1 then (2 ^ 64 - v % 2 ^ 64) % 2 ^ 64 else v)

/-- `token.substr(0, token.find('/'))`: keep the text before the first `/`. -/
def stripSlash (t : List Char) : List Char :=
  t.takeWhile (fun c => c ≠ '/')

/-- Spec-side notion for C4: the mathematical signed integer a face token
"parses to" — optional sign and digit run read as a plain integer, with no
unsigned wraparound. -/
def specTokenInt (t : List Char) : Option ℤ :=
  let sp := stoulSign (skipWs t)
  let dp := takeDigits sp.2
  if dp.1 = [] then none
  else some (if sp.1 then -(digitsVal dp.1 : ℤ) else (digitsVal dp.1 : ℤ))

/-- `s21::Model::ErrorCode`. -/
inductive ErrorCode where
  | kSuccess
  | kFileOpenError
  | kInvalidData
  | kNoValidData
deriving DecidableEq, Repr

/-- The state of an `s21::Model` as the parsing claims observe it: the path,
the vertex buffer (coordinates as exact rationals), the polygon buffer
(each polygon its `vertex_indices` list), and the last-error pair. -/
structure ModelQ where
  path_file : String
  vertices : List (ℚ × ℚ × ℚ)
  polygons : List (List ℕ)
  last_error : ErrorCode
  last_error_str : String
deriving DecidableEq, Repr

/-- A character list that is empty or starts with whitespace: the shape of
the text that may legitimately follow a fully scanned token. -/
def wsHeaded (u : List Char) : Prop := u = [] ∨ isSpace u.headI = true

/-- Spec-side notion for C2: a "floating-point token" — a whole token that
is one valid float literal (scanned completely, nothing left over). -/
def isFloatTok (t : List Char) : Bool :=
  match scanFloat t with
  | some p => p.2.isEmpty
  | none => false

/-- `s21::Polygon::IsValid(n)`: at least 3 indices, every index `< n`, and at
least 3 distinct indices. -/
def polyIsValid (ids : List ℕ) (n : ℕ) : Bool :=
  decide (3 ≤ ids.length) && ids.all (fun i => decide (i < n)) &&
    decide (3 ≤ ids.dedup.length)

/-- `s21::Model::IsValid()`: a nonempty vertex buffer and every polygon in
the buffer individually valid against the current vertex count. -/
def modelIsValid (m : ModelQ) : Bool :=
  !m.vertices.isEmpty && m.polygons.all (fun p => polyIsValid p m.vertices.length)

/-- `s21::Model::GetVertexCount()`. -/
def GetVertexCount (m : ModelQ) : ℕ := m.vertices.length

/-- `s21::Model::GetPolygonCount()`. -/
def GetPolygonCount (m : ModelQ) : ℕ := m.polygons.length

/-- `s21::Model::ParseVertex(line)`: `sscanf(line, "v %f %f %f", …)`; when
exactly 3 conversions are assigned the vertex is appended and the call
returns `true`, otherwise a `runtime_error("Invalid vertex format")` is
thrown (modelled as `.error`). -/
def ParseVertex (line : List Char) (m : ModelQ) : Except String ModelQ :=
  if (sscanfVFFF line).1 = 3 then
    .ok { m with vertices := m.vertices ++ [(sscanfVFFF line).2] }
  else .error "Invalid vertex format"

/-- The token loop of `s21::Model::ParsePolygon`: each token is cut at its
first `/`, converted with `stoul`, range-checked against the current vertex
count `n` (`idx == 0 || idx > n` is out of range), and appended 0-based
(`idx − 1`).  Any `stoul` exception or range failure becomes the thrown
`runtime_error("Invalid face index: …")` aborting the whole line. -/
def parseFaceTokens (n : ℕ) : List (List Char) → Except String (List ℕ)
  | [] => .ok []
  | t :: ts =>
    match stoulTok (stripSlash t) with
    | none => .error "Invalid face index"
    | some idx =>
      if idx = 0 ∨ n < idx then .error "Invalid face index"
      else
        match parseFaceTokens n ts with
        | .ok rest => .ok ((idx - 1) :: rest)
        | .error e => .error e

/-- `s21::Model::ParsePolygon(line)`: tokenize `line.substr(2)`, run the
token loop, then insert the assembled polygon only when
`Polygon::IsValid(vertex count)` holds; returns the updated model and the
`bool` result of the C++ function (`true` iff a polygon was inserted). -/
def ParsePolygon (line : List Char) (m : ModelQ) : Except String (ModelQ × Bool) :=
  match parseFaceTokens m.vertices.length (splitWs (line.drop 2)) with
  | .error e => .error e
  | .ok ids =>
    if polyIsValid ids m.vertices.length then
      .ok ({ m with polygons := m.polygons ++ [ids] }, true)
    else .ok (m, false)

/-- The `SetError` performed by the `catch` block of the `getline` loop:
record a `kInvalidData` error mentioning the 1-based line number. -/
def setLineError (m : ModelQ) (lineNum : ℕ) (e : String) : ModelQ :=
  { m with
      last_error := ErrorCode.kInvalidData
      last_error_str := "Error at line " ++ toString lineNum ++ ": " ++ e }

/-- One iteration of the `getline` loop of `LoadFromFile`: strip leading
whitespace; skip blank and `#` lines; dispatch lines starting `"v "` and
`"f "`; record any thrown exception as a `kInvalidData` line-local error and
continue.  The state is the model paired with `has_valid_data`. -/
def processLine (lineNum : ℕ) (st : ModelQ × Bool) (line : List Char) :
    ModelQ × Bool :=
  if skipWs line = [] then st
  else if (skipWs line).headI = '#' then st
  else if (skipWs line).take 2 = ['v', ' '] then
    match ParseVertex (skipWs line) st.1 with
    | .ok m' => (m', true)
    | .error e => (setLineError st.1 lineNum e, st.2)
  else if (skipWs line).take 2 = ['f', ' '] then
    match ParsePolygon (skipWs line) st.1 with
    | .ok (m', inserted) => (m', st.2 || inserted)
    | .error e => (setLineError st.1 lineNum e, st.2)
  else st

/-- The whole `getline` loop, threading the model, `has_valid_data` and the
1-based line counter over the lines of the file. -/
def processLines (lines : List (List Char)) (st : ModelQ × Bool) (lineNum : ℕ) :
    ModelQ × Bool :=
  match lines with
  | [] => st
  | line :: rest => processLines rest (processLine (lineNum + 1) st line) (lineNum + 1)

/-- The freshly reset model at the top of `LoadFromFile`: errors cleared,
both buffers cleared, the path recorded. -/
def resetModel (path : String) : ModelQ :=
  { path_file := path
    vertices := []
    polygons := []
    last_error := ErrorCode.kSuccess
    last_error_str := "" }

/-- `s21::Model::LoadFromFile(path)`.  `contents = none` models a file that
could not be opened (`kFileOpenError`); otherwise the lines are streamed
through the parser, then the `has_valid_data` check (`kNoValidData`) and the
final whole-mesh `IsValid` check (`kInvalidData`) decide the result. -/
def LoadFromFile (contents : Option (List (List Char))) (path : String) :
    Bool × ModelQ :=
  let m0 := resetModel path
  match contents with
  | none =>
    (false,
      { m0 with
          last_error := ErrorCode.kFileOpenError
          last_error_str := "Failed to open file: " ++ path
          path_file := "Failed to open file: " ++ path })
  | some lines =>
    let st := processLines lines (m0, false) 0
    if !st.2 then
      (false,
        { st.1 with
            last_error := ErrorCode.kNoValidData
            last_error_str := "No valid data found in file" })
    else if !modelIsValid st.1 then
      (false,
        { st.1 with
            last_error := ErrorCode.kInvalidData
            last_error_str := "Loaded data is invalid" })
    else (true, st.1)

/-- The body of the edge-collection double loop of `Model::GetEdges` for one
polygon: for each position `i`, take the consecutive pair
`(p[i], p[(i+1) % size])`, skip it when the endpoints are equal, and
normalize it as `(min, max)`. -/
def edgeList (p : List ℕ) : List (ℕ × ℕ) :=
  (List.range p.length).filterMap (fun i =>
    if p.getD i 0 = p.getD ((i + 1) % p.length) 0 then none
    else some (min (p.getD i 0) (p.getD ((i + 1) % p.length) 0),
      max (p.getD i 0) (p.getD ((i + 1) % p.length) 0)))

/-- `s21::Model::GetEdges()`: the `std::set` of normalized consecutive pairs
over all polygons, polygons with fewer than 2 indices skipped.  The C++
function returns the set's elements as a vector; the observable content is
the finite set itself, modelled as a `Finset`. -/
def GetEdges (polys : List (List ℕ)) : Finset (ℕ × ℕ) :=
  polys.foldl
    (fun acc p => if p.length < 2 then acc else acc ∪ (edgeList p).toFinset) ∅

/-- Spec-side notion for C7: `b` follows `a` at some position of polygon
`p`, the wrap-around position included. -/
def specAdjacent (p : List ℕ) (a b : ℕ) : Prop :=
  ∃ i < p.length, p.getD i 0 = a ∧ p.getD ((i + 1) % p.length) 0 = b

/-- The invariant carried through the `getline` loop of `LoadFromFile`:
while `has_valid_data` is still false both buffers are empty; once it is
true the vertex buffer is nonempty; and every polygon in the buffer is valid
against the current vertex count. -/
def LoadInv (st : ModelQ × Bool) : Prop :=
  (st.2 = false → st.1.vertices = [] ∧ st.1.polygons = []) ∧
    (st.2 = true → st.1.vertices ≠ []) ∧
    ∀ p ∈ st.1.polygons, polyIsValid p st.1.vertices.length = true

/-! ### Geometry: vertices over ℝ, transform commands, normalization -/

/-- `s21::Vertex` for the geometric claims: three coordinates, modelled as
exact reals (float rounding abstracted away). -/
@[ext]
structure Vertex where
  x : ℝ
  y : ℝ
  z : ℝ

/-- The state of an `s21::Model` as the transform claims observe it, with
real-valued vertices. -/
structure ModelR where
  path_file : String
  vertices : List Vertex
  polygons : List (List ℕ)
  last_error : ErrorCode
  last_error_str : String

/-- Loop body of `MoveCommand::Execute`: add the offsets to the coordinates
of one vertex. -/
noncomputable def moveVertex (dx dy dz : ℝ) (v : Vertex) : Vertex :=
  { x := v.x + dx, y := v.y + dy, z := v.z + dz }

/-- Loop body of `ScaleCommand::Execute`: multiply the coordinates of one
vertex by the factor. -/
noncomputable def scaleVertex (factor : ℝ) (v : Vertex) : Vertex :=
  { x := v.x * factor, y := v.y * factor, z := v.z * factor }

/-- `RotateCommand::RotatePair`: the 2D rotation
`(p1, p2) = (c1·cos θ − c2·sin θ, c1·sin θ + c2·cos θ)` written back into
the coordinate pair. -/
noncomputable def rotatePair (c1 c2 angle : ℝ) : ℝ × ℝ :=
  (c1 * Real.cos angle - c2 * Real.sin angle,
    c1 * Real.sin angle + c2 * Real.cos angle)

/-- Per-vertex body of `RotateCommand::RotateVertices`: rotate the (y, z)
pair by `ax` when `ax ≠ 0`, then the (z, x) pair by `ay` when `ay ≠ 0`,
then the (x, y) pair by `az` when `az ≠ 0` (angles already in radians). -/
noncomputable def rotateVertex (ax ay az : ℝ) (v : Vertex) : Vertex :=
  let v1 := if ax = 0 then v else
    { x := v.x, y := (rotatePair v.y v.z ax).1, z := (rotatePair v.y v.z ax).2 }
  let v2 := if ay = 0 then v1 else
    { x := (rotatePair v1.z v1.x ay).2, y := v1.y, z := (rotatePair v1.z v1.x ay).1 }
  if az = 0 then v2 else
    { x := (rotatePair v2.x v2.y az).1, y := (rotatePair v2.x v2.y az).2, z := v2.z }

/-- `RotateCommand::RotateVertices` with `inverse = false`: convert the
degree angles to radians with `deg_to_rad = π / 180` and apply the
per-vertex rotation to every vertex. -/
noncomputable def RotateVertices (angle_x angle_y angle_z : ℝ)
    (vs : List Vertex) : List Vertex :=
  vs.map (rotateVertex (angle_x * (Real.pi / 180)) (angle_y * (Real.pi / 180))
    (angle_z * (Real.pi / 180)))

/-- `MoveCommand::Execute` against the manager state: `none` models "no
mesh held" (`GetModel()` returned `nullptr`). -/
noncomputable def MoveExecute (dx dy dz : ℝ) (st : Option ModelR) :
    Option ModelR :=
  match st with
  | none => none
  | some m => some { m with vertices := m.vertices.map (moveVertex dx dy dz) }

/-- `RotateCommand::Execute` against the manager state. -/
noncomputable def RotateExecute (ax ay az : ℝ) (st : Option ModelR) :
    Option ModelR :=
  match st with
  | none => none
  | some m => some { m with vertices := RotateVertices ax ay az m.vertices }

/-- `ScaleCommand::Execute` against the manager state: a non-positive
factor returns before touching the manager. -/
noncomputable def ScaleExecute (factor : ℝ) (st : Option ModelR) :
    Option ModelR :=
  if factor ≤ 0 then st
  else
    match st with
    | none => none
    | some m => some { m with vertices := m.vertices.map (scaleVertex factor) }

/-- Spec-side for C5: the rotation about X, per the spec's formula on the
(y, z) pair. -/
noncomputable def spec_rotX (θ : ℝ) (v : Vertex) : Vertex :=
  { x := v.x
    y := v.y * Real.cos θ - v.z * Real.sin θ
    z := v.y * Real.sin θ + v.z * Real.cos θ }

/-- Spec-side for C5: the rotation about Y, per the spec's formula on the
(z, x) pair. -/
noncomputable def spec_rotY (θ : ℝ) (v : Vertex) : Vertex :=
  { x := v.z * Real.sin θ + v.x * Real.cos θ
    y := v.y
    z := v.z * Real.cos θ - v.x * Real.sin θ }

/-- Spec-side for C5: the rotation about Z, per the spec's formula on the
(x, y) pair. -/
noncomputable def spec_rotZ (θ : ℝ) (v : Vertex) : Vertex :=
  { x := v.x * Real.cos θ - v.y * Real.sin θ
    y := v.x * Real.sin θ + v.y * Real.cos θ
    z := v.z }

/-- Spec-side for C5, following the spec's words: convert each non-zero
angle from degrees to radians, and apply rotation about X, then about Y,
then about Z, skipping an axis whose angle is exactly zero. -/
noncomputable def spec_rotate (degx degy degz : ℝ) (v : Vertex) : Vertex :=
  let f1 := if degx = 0 then v else spec_rotX (degx * (Real.pi / 180)) v
  let f2 := if degy = 0 then f1 else spec_rotY (degy * (Real.pi / 180)) f1
  if degz = 0 then f2 else spec_rotZ (degz * (Real.pi / 180)) f2

/-- `s21::Model::NormalizeModel()`: nothing to do on an empty vertex
buffer; otherwise compute the axis-aligned bounding box (folds seeded with
vertex 0 over all vertices), its center, half the box diagonal as the
radius (substituting 1.0 when below 1e-6), and map every vertex to
`(v − center) · (1/radius)`. -/
noncomputable def NormalizeModel (vs : List Vertex) : List Vertex :=
  match vs with
  | [] => []
  | v0 :: _ =>
    let min_x := vs.foldl (fun a v => min a v.x) v0.x
    let min_y := vs.foldl (fun a v => min a v.y) v0.y
    let min_z := vs.foldl (fun a v => min a v.z) v0.z
    let max_x := vs.foldl (fun a v => max a v.x) v0.x
    let max_y := vs.foldl (fun a v => max a v.y) v0.y
    let max_z := vs.foldl (fun a v => max a v.z) v0.z
    let center_x := (min_x + max_x) * (1 / 2)
    let center_y := (min_y + max_y) * (1 / 2)
    let center_z := (min_z + max_z) * (1 / 2)
    let dx := max_x - min_x
    let dy := max_y - min_y
    let dz := max_z - min_z
    let diagonal := Real.sqrt (dx * dx + dy * dy + dz * dz)
    let radius := diagonal * (1 / 2)
    let radius' := if radius < 1e-6 then 1 else radius
    let scale_factor := 1 / radius'
    vs.map (fun v =>
      { x := (v.x - center_x) * scale_factor
        y := (v.y - center_y) * scale_factor
        z := (v.z - center_z) * scale_factor })

/-! ### Load-loop invariant: C1 and C6 -/

/-- Characterization of `Polygon::IsValid`. -/
lemma polyIsValid_iff {ids : List ℕ} {n : ℕ} :
    polyIsValid ids n = true ↔
      3 ≤ ids.length ∧ (∀ i ∈ ids, i < n) ∧ 3 ≤ ids.dedup.length := by
  simp [polyIsValid, List.all_eq_true, and_assoc]

/-- `Polygon::IsValid` is monotone in the vertex count: a polygon valid
against `n` vertices stays valid when more vertices arrive. -/
lemma polyIsValid_mono {ids : List ℕ} {n k : ℕ} (h : polyIsValid ids n = true)
    (hnk : n ≤ k) : polyIsValid ids k = true := by
  rw [polyIsValid_iff] at h ⊢
  exact ⟨h.1, fun i hi => lt_of_lt_of_le (h.2.1 i hi) hnk, h.2.2⟩

/-- A polygon can only be valid against a positive vertex count. -/
lemma polyIsValid_pos {ids : List ℕ} {n : ℕ} (h : polyIsValid ids n = true) :
    0 < n := by
  rw [polyIsValid_iff] at h
  obtain ⟨h1, h2, -⟩ := h
  cases ids with
  | nil => simp at h1
  | cons a l => exact Nat.lt_of_le_of_lt (Nat.zero_le a) (h2 a (by simp))

/-- Shape of a successful `ParseVertex`: exactly one vertex is appended and
nothing else changes. -/
lemma ParseVertex_ok {l : List Char} {m m' : ModelQ}
    (h : ParseVertex l m = .ok m') :
    m' = { m with vertices := m.vertices ++ [(sscanfVFFF l).2] } := by
  unfold ParseVertex at h
  split at h
  · simp only [Except.ok.injEq] at h
    exact h.symm
  · exact absurd h (by simp)

/-- Shape of a non-throwing `ParsePolygon`: either a polygon that is valid
against the current vertex count is appended (result `true`), or the model
is unchanged (result `false`). -/
lemma ParsePolygon_ok {l : List Char} {m m' : ModelQ} {b : Bool}
    (h : ParsePolygon l m = .ok (m', b)) :
    (∃ ids, polyIsValid ids m.vertices.length = true ∧
        m' = { m with polygons := m.polygons ++ [ids] } ∧ b = true) ∨
      (m' = m ∧ b = false) := by
  unfold ParsePolygon at h
  split at h
  · exact absurd h (by simp)
  · rename_i ids hp
    split at h
    · rename_i hv
      simp only [Except.ok.injEq, Prod.mk.injEq] at h
      exact Or.inl ⟨ids, hv, h.1.symm, h.2.symm⟩
    · rename_i hv
      simp only [Except.ok.injEq, Prod.mk.injEq] at h
      exact Or.inr ⟨h.1.symm, h.2.symm⟩

/-- Each loop iteration preserves the load invariant. -/
lemma processLine_inv (k : ℕ) (st : ModelQ × Bool) (line : List Char)
    (h : LoadInv st) : LoadInv (processLine k st line) := by
  obtain ⟨h0, h1, h2⟩ := h
  unfold processLine
  by_cases he : skipWs line = []
  · rw [if_pos he]; exact ⟨h0, h1, h2⟩
  · rw [if_neg he]
    by_cases hc : (skipWs line).headI = '#'
    · rw [if_pos hc]; exact ⟨h0, h1, h2⟩
    · rw [if_neg hc]
      by_cases hv : (skipWs line).take 2 = ['v', ' ']
      · rw [if_pos hv]
        cases hpv : ParseVertex (skipWs line) st.1 with
        | ok m' =>
          rw [ParseVertex_ok hpv]
          refine ⟨by simp, fun _ => by simp, fun p hp => ?_⟩
          exact polyIsValid_mono (h2 p hp) (by simp)
        | error e => exact ⟨h0, h1, h2⟩
      · rw [if_neg hv]
        by_cases hf : (skipWs line).take 2 = ['f', ' ']
        · rw [if_pos hf]
          cases hpp : ParsePolygon (skipWs line) st.1 with
          | ok r =>
            obtain ⟨m', b⟩ := r
            rcases ParsePolygon_ok hpp with ⟨ids, hid, hm', hb⟩ | ⟨hm', hb⟩
            · subst hm'; subst hb
              refine ⟨by simp, fun _ => ?_, fun p hp => ?_⟩
              · exact List.ne_nil_of_length_pos (polyIsValid_pos hid)
              · simp only [List.mem_append, List.mem_singleton] at hp
                rcases hp with hp | hp
                · exact h2 p hp
                · exact hp ▸ hid
            · subst hm'; subst hb
              exact ⟨fun hb' => h0 (by simpa using hb'),
                fun hb' => h1 (by simpa using hb'), h2⟩
          | error e => exact ⟨h0, h1, h2⟩
        · rw [if_neg hf]; exact ⟨h0, h1, h2⟩

/-- The whole loop preserves the load invariant. -/
lemma processLines_inv (lines : List (List Char)) (st : ModelQ × Bool) (k : ℕ)
    (h : LoadInv st) : LoadInv (processLines lines st k) := by
  induction lines generalizing st k with
  | nil => exact h
  | cons line rest ih => exact ih _ _ (processLine_inv (k + 1) st line h)

/-- `Model::IsValid` holds of any model with a nonempty vertex buffer whose
polygons are all individually valid. -/
lemma modelIsValid_of {m : ModelQ} (hv : m.vertices ≠ [])
    (hp : ∀ p ∈ m.polygons, polyIsValid p m.vertices.length = true) :
    modelIsValid m = true := by
  simp only [modelIsValid, Bool.and_eq_true, Bool.not_eq_true', List.all_eq_true]
  exact ⟨by simp [List.isEmpty_iff, hv], hp⟩

/-- The initial state of the loop satisfies the invariant. -/
lemma loadInv_init (path : String) : LoadInv (resetModel path, false) :=
  ⟨fun _ => ⟨rfl, rfl⟩, by simp, by simp [resetModel]⟩

/-- C1: every load attempt that returns failure — whatever the error code
(`kFileOpenError`, `kNoValidData`, or `kInvalidData`) — leaves both the
vertex buffer and the polygon buffer empty, so `GetVertexCount() == 0` holds
after any failed load. -/
theorem C1_failed_load_leaves_buffers_empty
    (contents : Option (List (List Char))) (path : String)
    (h : (LoadFromFile contents path).1 = false) :
    (LoadFromFile contents path).2.vertices = [] ∧
      (LoadFromFile contents path).2.polygons = [] ∧
      GetVertexCount (LoadFromFile contents path).2 = 0 := by
  cases contents with
  | none => exact ⟨rfl, rfl, rfl⟩
  | some lines =>
    have hinv := processLines_inv lines (resetModel path, false) 0 (loadInv_init path)
    obtain ⟨h0, h1, h2⟩ := hinv
    simp only [LoadFromFile] at h ⊢
    cases hb : (processLines lines (resetModel path, false) 0).2 with
    | false =>
      obtain ⟨hv, hp⟩ := h0 hb
      simp [hb, GetVertexCount, hv, hp]
    | true =>
      have hval := modelIsValid_of (h1 hb) h2
      rw [hb] at h
      simp [hval] at h

/-- Witness for C1 at a failing concrete load (a file with no valid data). -/
theorem C1_witness :
    (LoadFromFile (some [['x']]) "p").1 = false ∧
      (LoadFromFile (some [['x']]) "p").2.vertices = [] ∧
        (LoadFromFile (some [['x']]) "p").2.polygons = [] ∧
        GetVertexCount (LoadFromFile (some [['x']]) "p").2 = 0 :=
  ⟨by decide, C1_failed_load_leaves_buffers_empty (some [['x']]) "p" (by decide)⟩

/-- C6: whenever a load reaches the final whole-mesh `IsValid` check (that
is, `has_valid_data` is true after the loop), that check succeeds — so a
load of an openable file can only fail with `kNoValidData`, and the
`kInvalidData` branch after parsing is never taken. -/
theorem C6_final_validity_check_never_fails
    (lines : List (List Char)) (path : String) :
    ((processLines lines (resetModel path, false) 0).2 = true →
        modelIsValid (processLines lines (resetModel path, false) 0).1 = true) ∧
      ((LoadFromFile (some lines) path).1 = false →
        (LoadFromFile (some lines) path).2.last_error = ErrorCode.kNoValidData) := by
  have hinv := processLines_inv lines (resetModel path, false) 0 (loadInv_init path)
  obtain ⟨h0, h1, h2⟩ := hinv
  constructor
  · intro hb
    exact modelIsValid_of (h1 hb) h2
  · intro h
    simp only [LoadFromFile] at h ⊢
    cases hb : (processLines lines (resetModel path, false) 0).2 with
    | false => simp [hb]
    | true =>
      have hval := modelIsValid_of (h1 hb) h2
      rw [hb] at h
      simp [hval] at h

/-- Witness for C6: a load whose `has_valid_data` is true does pass the
final check, and a load that fails does carry `kNoValidData`. -/
theorem C6_witness :
    ((processLines [['v', ' ', '0', ' ', '0', ' ', '0']]
          (resetModel "p", false) 0).2 = true ∧
        modelIsValid (processLines [['v', ' ', '0', ' ', '0', ' ', '0']]
          (resetModel "p", false) 0).1 = true) ∧
      (LoadFromFile (some [['x']]) "q").1 = false ∧
        (LoadFromFile (some [['x']]) "q").2.last_error = ErrorCode.kNoValidData :=
  ⟨⟨by decide,
      (C6_final_validity_check_never_fails [['v', ' ', '0', ' ', '0', ' ', '0']] "p").1
        (by decide)⟩,
    by decide,
    (C6_final_validity_check_never_fails [['x']] "q").2 (by decide)⟩

/-! ### Edge derivation: C7 -/

/-- Membership in the edge-collection fold of `GetEdges`. -/
lemma mem_GetEdges_aux (polys : List (List ℕ)) (acc : Finset (ℕ × ℕ))
    (x : ℕ × ℕ) :
    x ∈ polys.foldl
        (fun acc p => if p.length < 2 then acc else acc ∪ (edgeList p).toFinset)
        acc ↔
      x ∈ acc ∨ ∃ p ∈ polys, 2 ≤ p.length ∧ x ∈ edgeList p := by
  induction polys generalizing acc with
  | nil => simp
  | cons p ps ih =>
    simp only [List.foldl_cons, ih, List.mem_cons, exists_eq_or_imp]
    by_cases hl : p.length < 2
    · have h2 : ¬ 2 ≤ p.length := by omega
      rw [if_pos hl]
      simp [h2]
    · have h2 : 2 ≤ p.length := by omega
      rw [if_neg hl]
      simp only [Finset.mem_union, List.mem_toFinset, h2, true_and]
      tauto

/-- Membership in the per-polygon edge list. -/
lemma mem_edgeList {p : List ℕ} {x : ℕ × ℕ} :
    x ∈ edgeList p ↔
      ∃ i < p.length,
        p.getD i 0 ≠ p.getD ((i + 1) % p.length) 0 ∧
          x = (min (p.getD i 0) (p.getD ((i + 1) % p.length) 0),
            max (p.getD i 0) (p.getD ((i + 1) % p.length) 0)) := by
  simp only [edgeList, List.mem_filterMap, List.mem_range]
  constructor
  · rintro ⟨i, hi, hfi⟩
    refine ⟨i, hi, ?_⟩
    by_cases hse : p.getD i 0 = p.getD ((i + 1) % p.length) 0
    · rw [if_pos hse] at hfi; exact absurd hfi (by simp)
    · rw [if_neg hse] at hfi
      simp only [Option.some.injEq] at hfi
      exact ⟨hse, hfi.symm⟩
  · rintro ⟨i, hi, hse, hx⟩
    exact ⟨i, hi, by rw [if_neg hse, hx]⟩

/-- Two distinct adjacent indices force the polygon to have length at
least 2 (in a length-1 polygon the wrap-around successor of the only entry
is itself). -/
lemma specAdjacent_length {p : List ℕ} {a b : ℕ} (hab : a ≠ b)
    (h : specAdjacent p a b) : 2 ≤ p.length := by
  obtain ⟨i, hi, ha, hb⟩ := h
  by_contra hlt
  have hp1 : p.length = 1 := by omega
  have hi0 : i = 0 := by omega
  subst hi0
  rw [hp1] at hb
  have h01 : (0 + 1) % 1 = 0 := by norm_num
  rw [h01] at hb
  exact hab (ha.symm.trans hb)

/-- C7: `GetEdges` is exactly the set of normalized unordered pairs of
distinct consecutive indices (wrap-around included) over all polygons,
deduplicated; a triangle `0,1,2` yields exactly the three pairs
`{0,1},{1,2},{0,2}` and a quad `0,1,2,3` yields exactly four pairs
including the wrap-around `{0,3}`. -/
theorem C7_edges_are_normalized_consecutive_pairs :
    (∀ (polys : List (List ℕ)) (x : ℕ × ℕ),
        x ∈ GetEdges polys ↔
          ∃ p ∈ polys, ∃ a b, a ≠ b ∧ specAdjacent p a b ∧
            x = (min a b, max a b)) ∧
      GetEdges [[0, 1, 2]] = {(0, 1), (1, 2), (0, 2)} ∧
      GetEdges [[0, 1, 2, 3]] = {(0, 1), (1, 2), (2, 3), (0, 3)} := by
  refine ⟨fun polys x => ?_, by decide, by decide⟩
  rw [GetEdges, mem_GetEdges_aux]
  simp only [Finset.not_mem_empty, false_or]
  constructor
  · rintro ⟨p, hp, -, hx⟩
    rw [mem_edgeList] at hx
    obtain ⟨i, hi, hse, hx⟩ := hx
    exact ⟨p, hp, _, _, hse, ⟨i, hi, rfl, rfl⟩, hx⟩
  · rintro ⟨p, hp, a, b, hab, hadj, hx⟩
    refine ⟨p, hp, specAdjacent_length hab hadj, ?_⟩
    rw [mem_edgeList]
    obtain ⟨i, hi, ha, hb⟩ := hadj
    exact ⟨i, hi, by rw [ha, hb]; exact hab, by rw [ha, hb, hx]⟩

/-! ### Character-scanner bridge lemmas (towards C2) -/

/-- A whitespace character is none of the characters meaningful inside a
float literal. -/
lemma isSpace_spec {c : Char} (h : isSpace c = true) :
    c.isDigit = false ∧ c ≠ '-' ∧ c ≠ '+' ∧ c ≠ '.' ∧ c ≠ 'e' ∧ c ≠ 'E' := by
  simp only [isSpace, decide_eq_true_eq] at h
  rcases h with rfl | rfl | rfl | rfl | rfl | rfl <;>
    exact ⟨by decide, by decide, by decide, by decide, by decide, by decide⟩

/-- `takeDigits` splits its input. -/
lemma takeDigits_spine (t : List Char) :
    (takeDigits t).1 ++ (takeDigits t).2 = t := by
  induction t with
  | nil => rfl
  | cons c cs ih =>
    by_cases hc : c.isDigit
    · simp [takeDigits, hc, ih]
    · simp [takeDigits, hc]

/-- How `takeDigits` acts on an appended input. -/
lemma takeDigits_append (t u : List Char) :
    takeDigits (t ++ u) =
      if (takeDigits t).2 = [] then
        ((takeDigits t).1 ++ (takeDigits u).1, (takeDigits u).2)
      else ((takeDigits t).1, (takeDigits t).2 ++ u) := by
  induction t with
  | nil => simp [takeDigits]
  | cons c cs ih =>
    by_cases hc : c.isDigit
    · by_cases h2 : (takeDigits cs).2 = []
      · simp [takeDigits, hc, ih, h2]
      · simp [takeDigits, hc, ih, h2]
    · simp [takeDigits, hc]

/-- `takeDigits` consumes nothing from a whitespace-headed input. -/
lemma takeDigits_wsHeaded {u : List Char} (hu : wsHeaded u) :
    takeDigits u = ([], u) := by
  rcases hu with rfl | hh
  · rfl
  · cases u with
    | nil => rfl
    | cons c r =>
      have hc : isSpace c = true := by simpa using hh
      simp [takeDigits, (isSpace_spec hc).1]

/-- `scanSign` on an appended input, for nonempty left part. -/
lemma scanSign_append (u : List Char) {t : List Char} (ht : t ≠ []) :
    scanSign (t ++ u) = ((scanSign t).1, (scanSign t).2 ++ u) := by
  cases t with
  | nil => exact absurd rfl ht
  | cons c cs =>
    by_cases h1 : c = '-'
    · simp [scanSign, h1]
    · by_cases h2 : c = '+'
      · simp [scanSign, h1, h2]
      · simp [scanSign, h1, h2]

/-- `scanExpSign` on an appended input, for nonempty left part. -/
lemma scanExpSign_append (u : List Char) {t : List Char} (ht : t ≠ []) :
    scanExpSign (t ++ u) = ((scanExpSign t).1, (scanExpSign t).2 ++ u) := by
  cases t with
  | nil => exact absurd rfl ht
  | cons c cs =>
    by_cases h1 : c = '-'
    · simp [scanExpSign, h1]
    · by_cases h2 : c = '+'
      · simp [scanExpSign, h1, h2]
      · simp [scanExpSign, h1, h2]

/-- `scanFrac` consumes nothing from a whitespace-headed input. -/
lemma scanFrac_wsHeaded {u : List Char} (hu : wsHeaded u) :
    scanFrac u = ([], u) := by
  rcases hu with rfl | hh
  · rfl
  · cases u with
    | nil => rfl
    | cons c r =>
      have hc : isSpace c = true := by simpa using hh
      simp [scanFrac, (isSpace_spec hc).2.2.2.1]

/-- `scanExp` consumes nothing from a whitespace-headed input. -/
lemma scanExp_wsHeaded {u : List Char} (hu : wsHeaded u) :
    scanExp u = (0, u) := by
  rcases hu with rfl | hh
  · rfl
  · cases u with
    | nil => rfl
    | cons c r =>
      have hc : isSpace c = true := by simpa using hh
      have hs := isSpace_spec hc
      simp [scanExp, hs.2.2.2.2.1, hs.2.2.2.2.2]

/-- A fully consumed exponent part scans identically when whitespace-headed
text follows. -/
lemma scanExp_full_append {t u : List Char} {e : ℤ}
    (h : scanExp t = (e, [])) (hu : wsHeaded u) :
    scanExp (t ++ u) = (e, u) := by
  cases t with
  | nil =>
    have he : e = 0 := by
      have := congrArg Prod.fst h
      simpa [scanExp] using this.symm
    subst he
    simpa using scanExp_wsHeaded hu
  | cons c r =>
    by_cases hc : c = 'e' ∨ c = 'E'
    · simp only [scanExp, if_pos hc] at h
      by_cases hd : (takeDigits (scanExpSign r).2).1 = []
      · rw [if_pos hd] at h
        exact absurd (congrArg Prod.snd h) (by simp)
      · rw [if_neg hd] at h
        have hr : r ≠ [] := by
          intro h0
          subst h0
          simp [scanExpSign, takeDigits] at hd
        have hdp2 : (takeDigits (scanExpSign r).2).2 = [] := congrArg Prod.snd h
        have he : e = (scanExpSign r).1 * (digitsVal (takeDigits (scanExpSign r).2).1 : ℤ) :=
          (congrArg Prod.fst h).symm
        simp only [List.cons_append, scanExp, if_pos hc]
        rw [scanExpSign_append u hr, takeDigits_append, if_pos hdp2,
          takeDigits_wsHeaded hu]
        simp [hd, he]
    · simp only [scanExp, if_neg hc] at h
      exact absurd (congrArg Prod.snd h) (by simp)

/-- A whitespace character is none of the characters that can open or
continue the hexadecimal, parenthesized or exponent parts of a float. -/
lemma isSpace_spec2 {c : Char} (h : isSpace c = true) :
    c ≠ '0' ∧ c ≠ '(' ∧ c ≠ 'p' ∧ c ≠ 'P' ∧ c ≠ 'x' ∧ c ≠ 'X' ∧
      isHexDigit c = false := by
  simp only [isSpace, decide_eq_true_eq] at h
  rcases h with rfl | rfl | rfl | rfl | rfl | rfl <;> decide

/-- A whitespace character cannot start or continue the `inf`, `infinity`
or `nan` keywords. -/
lemma isSpace_keyword {c : Char} (h : isSpace c = true) :
    c.toLower ∉ (['i', 'n', 'f'] : List Char) ∧
      c.toLower ∉ (['i', 'n', 'i', 't', 'y'] : List Char) ∧
      c.toLower ∉ (['n', 'a', 'n'] : List Char) := by
  simp only [isSpace, decide_eq_true_eq] at h
  rcases h with rfl | rfl | rfl | rfl | rfl | rfl <;> decide

/-- `takeHexDigits` splits its input. -/
lemma takeHexDigits_spine (t : List Char) :
    (takeHexDigits t).1 ++ (takeHexDigits t).2 = t := by
  induction t with
  | nil => rfl
  | cons c cs ih =>
    by_cases hc : isHexDigit c = true
    · simp [takeHexDigits, hc, ih]
    · simp [takeHexDigits, hc]

/-- How `takeHexDigits` acts on an appended input. -/
lemma takeHexDigits_append (t u : List Char) :
    takeHexDigits (t ++ u) =
      if (takeHexDigits t).2 = [] then
        ((takeHexDigits t).1 ++ (takeHexDigits u).1, (takeHexDigits u).2)
      else ((takeHexDigits t).1, (takeHexDigits t).2 ++ u) := by
  induction t with
  | nil => simp [takeHexDigits]
  | cons c cs ih =>
    by_cases hc : isHexDigit c = true
    · by_cases h2 : (takeHexDigits cs).2 = []
      · simp [takeHexDigits, hc, ih, h2]
      · simp [takeHexDigits, hc, ih, h2]
    · simp [takeHexDigits, hc]

/-- `takeHexDigits` consumes nothing from a whitespace-headed input. -/
lemma takeHexDigits_wsHeaded {u : List Char} (hu : wsHeaded u) :
    takeHexDigits u = ([], u) := by
  rcases hu with rfl | hh
  · rfl
  · cases u with
    | nil => rfl
    | cons c r =>
      have hc : isSpace c = true := by simpa using hh
      simp [takeHexDigits, (isSpace_spec2 hc).2.2.2.2.2.2]

/-- `scanHexFrac` consumes nothing from a whitespace-headed input. -/
lemma scanHexFrac_wsHeaded {u : List Char} (hu : wsHeaded u) :
    scanHexFrac u = ([], u) := by
  rcases hu with rfl | hh
  · rfl
  · cases u with
    | nil => rfl
    | cons c r =>
      have hc : isSpace c = true := by simpa using hh
      simp [scanHexFrac, (isSpace_spec hc).2.2.2.1]

/-- `scanPExp` consumes nothing from a whitespace-headed input. -/
lemma scanPExp_wsHeaded {u : List Char} (hu : wsHeaded u) :
    scanPExp u = (0, u) := by
  rcases hu with rfl | hh
  · rfl
  · cases u with
    | nil => rfl
    | cons c r =>
      have hc : isSpace c = true := by simpa using hh
      have hs := isSpace_spec2 hc
      simp [scanPExp, hs.2.2.1, hs.2.2.2.1]

/-- A fully consumed binary exponent part scans identically when
whitespace-headed text follows. -/
lemma scanPExp_full_append {t u : List Char} {e : ℤ}
    (h : scanPExp t = (e, [])) (hu : wsHeaded u) :
    scanPExp (t ++ u) = (e, u) := by
  cases t with
  | nil =>
    have he : e = 0 := by
      have := congrArg Prod.fst h
      simpa [scanPExp] using this.symm
    subst he
    simpa using scanPExp_wsHeaded hu
  | cons c r =>
    by_cases hc : c = 'p' ∨ c = 'P'
    · simp only [scanPExp, if_pos hc] at h
      by_cases hd : (takeDigits (scanExpSign r).2).1 = []
      · rw [if_pos hd] at h
        exact absurd (congrArg Prod.snd h) (by simp)
      · rw [if_neg hd] at h
        have hr : r ≠ [] := by
          intro h0
          subst h0
          simp [scanExpSign, takeDigits] at hd
        have hdp2 : (takeDigits (scanExpSign r).2).2 = [] := congrArg Prod.snd h
        have he : e = (scanExpSign r).1 * (digitsVal (takeDigits (scanExpSign r).2).1 : ℤ) :=
          (congrArg Prod.fst h).symm
        simp only [List.cons_append, scanPExp, if_pos hc]
        rw [scanExpSign_append u hr, takeDigits_append, if_pos hdp2,
          takeDigits_wsHeaded hu]
        simp [hd, he]
    · simp only [scanPExp, if_neg hc] at h
      exact absurd (congrArg Prod.snd h) (by simp)

/-- A successful case-insensitive keyword match survives appending. -/
lemma matchCI_some_append {pat xs r : List Char} (u : List Char)
    (h : matchCI pat xs = some r) : matchCI pat (xs ++ u) = some (r ++ u) := by
  induction pat generalizing xs with
  | nil =>
    simp only [matchCI, Option.some.injEq] at h
    subst h
    rfl
  | cons p ps ih =>
    cases xs with
    | nil => simp [matchCI] at h
    | cons c cs =>
      simp only [List.cons_append, matchCI] at h ⊢
      by_cases hcp : c.toLower = p
      · rw [if_pos hcp] at h ⊢
        exact ih h
      · rw [if_neg hcp] at h
        exact absurd h (by simp)

/-- A failed case-insensitive keyword match still fails when
whitespace-headed text follows (whitespace never continues a keyword). -/
lemma matchCI_none_ws_append {pat xs : List Char} (u : List Char)
    (h : matchCI pat xs = none) (hu : wsHeaded u)
    (hpat : ∀ c : Char, isSpace c = true → c.toLower ∉ pat) :
    matchCI pat (xs ++ u) = none := by
  induction pat generalizing xs with
  | nil => simp [matchCI] at h
  | cons p ps ih =>
    cases xs with
    | nil =>
      cases u with
      | nil => exact h
      | cons c cs =>
        have hc : isSpace c = true := by
          rcases hu with h' | h'
          · exact absurd h' (by simp)
          · simpa using h'
        have hcp : c.toLower ≠ p := fun hcp => hpat c hc (by rw [hcp]; simp)
        simp [matchCI, hcp]
    | cons c cs =>
      simp only [List.cons_append, matchCI] at h ⊢
      by_cases hcp : c.toLower = p
      · rw [if_pos hcp] at h ⊢
        exact ih h (fun c hc hm => hpat c hc (by simp [hm]))
      · rw [if_neg hcp]

/-- `dropWhile` that stops inside the left part is unchanged by an
appended right part. -/
lemma dropWhile_append_cons {p : Char → Bool} {l : List Char} {d : Char}
    {after : List Char} (u : List Char) (h : l.dropWhile p = d :: after) :
    (l ++ u).dropWhile p = d :: (after ++ u) := by
  induction l with
  | nil => simp [List.dropWhile] at h
  | cons c cs ih =>
    by_cases hpc : p c = true
    · simp only [List.cons_append, List.dropWhile_cons, hpc, if_true] at h ⊢
      exact ih h
    · have hpc' : p c = false := by simpa using hpc
      simp only [List.cons_append, List.dropWhile_cons, hpc'] at h ⊢
      simp only [Bool.false_eq_true, if_false] at h ⊢
      simp only [List.cons.injEq] at h
      obtain ⟨rfl, rfl⟩ := h
      rfl

/-- A fully consumed NaN payload scans identically when whitespace-headed
text follows. -/
lemma scanNanPayload_full_append {xs u : List Char}
    (h : scanNanPayload xs = []) (hu : wsHeaded u) :
    scanNanPayload (xs ++ u) = u := by
  cases xs with
  | nil =>
    cases u with
    | nil => rfl
    | cons c cs =>
      have hc : isSpace c = true := by
        rcases hu with h' | h'
        · exact absurd h' (by simp)
        · simpa using h'
      simp [scanNanPayload, (isSpace_spec2 hc).2.1]
  | cons c r =>
    by_cases hc : c = '('
    · subst hc
      simp only [scanNanPayload] at h
      rw [if_pos trivial] at h
      cases hd : r.dropWhile isNanChar with
      | nil => rw [hd] at h; exact absurd h (by simp)
      | cons d after =>
        rw [hd] at h
        dsimp only at h
        by_cases hdp : d = ')'
        · rw [if_pos hdp] at h
          subst h
          simp only [List.cons_append, scanNanPayload]
          rw [if_pos trivial, dropWhile_append_cons u hd]
          dsimp only
          rw [if_pos hdp]
          rfl
        · rw [if_neg hdp] at h
          exact absurd h (by simp)
    · simp only [scanNanPayload] at h
      rw [if_neg hc] at h
      exact absurd h (by simp)

/-- `hexDigitHead` ignores whitespace-headed appended text. -/
lemma hexDigitHead_ws_append {rest u : List Char} (hu : wsHeaded u) :
    hexDigitHead (rest ++ u) = hexDigitHead rest := by
  cases rest with
  | nil =>
    cases u with
    | nil => rfl
    | cons c cs =>
      have hc : isSpace c = true := by
        rcases hu with h' | h'
        · exact absurd h' (by simp)
        · simpa using h'
      simp [hexDigitHead, (isSpace_spec2 hc).2.2.2.2.2.2]
  | cons c3 r3 => rfl

/-- The hexadecimal-prefix test ignores whitespace-headed appended text. -/
lemma isHexPrefix_ws_append {xs u : List Char} (hu : wsHeaded u) :
    isHexPrefix (xs ++ u) = isHexPrefix xs := by
  have hws : ∀ c : Char, u = c :: (u.drop 1) → u ≠ [] → isSpace c = true := by
    intro c hc hne
    rcases hu with h' | h'
    · exact absurd h' hne
    · rw [hc] at h'
      simpa using h'
  cases xs with
  | nil =>
    cases hu0 : u with
    | nil => rfl
    | cons c cs =>
      have hc : isSpace c = true := by
        subst hu0
        rcases hu with h' | h'
        · exact absurd h' (by simp)
        · simpa using h'
      cases cs with
      | nil => rfl
      | cons c1 cs1 =>
        cases cs1 with
        | nil => rfl
        | cons c2 cs2 => simp [isHexPrefix, (isSpace_spec2 hc).1]
  | cons c0 xs0 =>
    cases xs0 with
    | nil =>
      cases hu0 : u with
      | nil => simp
      | cons c1 cs1 =>
        have hc1 : isSpace c1 = true := by
          subst hu0
          rcases hu with h' | h'
          · exact absurd h' (by simp)
          · simpa using h'
        obtain ⟨-, -, -, -, hx, hX, -⟩ := isSpace_spec2 hc1
        cases cs1 with
        | nil => simp [isHexPrefix, hx, hX]
        | cons c2 cs2 => simp [isHexPrefix, hx, hX]
    | cons c1 xs1 =>
      cases xs1 with
      | nil =>
        cases hu0 : u with
        | nil => simp
        | cons c2 cs2 =>
          have hc2 : isSpace c2 = true := by
            subst hu0
            rcases hu with h' | h'
            · exact absurd h' (by simp)
            · simpa using h'
          obtain ⟨-, -, -, -, -, -, hhx⟩ := isSpace_spec2 hc2
          have hdot : c2 ≠ '.' := (isSpace_spec hc2).2.2.2.1
          simp [isHexPrefix, hhx, hdot]
      | cons c2 rest =>
        have hh : hexDigitHead (rest ++ u) = hexDigitHead rest :=
          hexDigitHead_ws_append hu
        simp [isHexPrefix, hh]

/-- A true hexadecimal-prefix test needs at least two characters. -/
lemma isHexPrefix_two_le {xs : List Char} (h : isHexPrefix xs = true) :
    2 ≤ xs.length := by
  cases xs with
  | nil => simp [isHexPrefix] at h
  | cons c0 xs0 =>
    cases xs0 with
    | nil => simp [isHexPrefix] at h
    | cons c1 xs1 => simp

/-- A fully consumed decimal magnitude scans to the same value when
whitespace-headed text follows, leaving exactly that text. -/
lemma scanDecMagnitude_full_append {t u : List Char} {x : ℚ}
    (h : scanDecMagnitude t = some (x, [])) (hu : wsHeaded u) :
    scanDecMagnitude (t ++ u) = some (x, u) := by
  simp only [scanDecMagnitude] at h
  by_cases hc1 : (takeDigits t).1 = [] ∧ (scanFrac (takeDigits t).2).1 = []
  · rw [if_pos hc1] at h; exact absurd h (by simp)
  · rw [if_neg hc1] at h
    simp only [Option.some.injEq, Prod.mk.injEq] at h
    obtain ⟨hval, hrest⟩ := h
    simp only [scanDecMagnitude]
    by_cases hip2 : (takeDigits t).2 = []
    · rw [takeDigits_append, if_pos hip2, takeDigits_wsHeaded hu]
      rw [hip2] at hc1
      rw [scanFrac_wsHeaded hu, scanExp_wsHeaded hu]
      simp only [List.append_nil]
      rw [if_neg (by simpa [scanFrac] using hc1)]
      refine congrArg some (Prod.ext ?_ rfl)
      rw [← hval, hip2]
      simp [scanFrac, scanExp]
    · rw [takeDigits_append, if_neg hip2]
      obtain ⟨d, r, hdr⟩ : ∃ d r, (takeDigits t).2 = d :: r := by
        cases hh : (takeDigits t).2 with
        | nil => exact absurd hh hip2
        | cons d r => exact ⟨d, r, rfl⟩
      rw [hdr]
      rw [hdr] at hc1 hrest
      by_cases hdot : d = '.'
      · simp only [scanFrac, if_pos hdot] at hc1 hrest
        simp only [List.cons_append, scanFrac, if_pos hdot]
        by_cases hf2 : (takeDigits r).2 = []
        · rw [takeDigits_append, if_pos hf2, takeDigits_wsHeaded hu]
          rw [scanExp_wsHeaded hu]
          simp only [List.append_nil]
          rw [if_neg (by simpa using hc1)]
          refine congrArg some (Prod.ext ?_ rfl)
          rw [← hval, hdr]
          simp only [scanFrac, if_pos hdot]
          rw [hf2]
          simp [scanExp]
        · rw [takeDigits_append, if_neg hf2]
          rw [scanExp_full_append (e := (scanExp (takeDigits r).2).1)
            (Prod.ext rfl hrest) hu]
          rw [if_neg (by simpa using hc1)]
          refine congrArg some (Prod.ext ?_ rfl)
          rw [← hval, hdr]
          simp only [scanFrac, if_pos hdot]
      · simp only [scanFrac, if_neg hdot] at hc1 hrest
        simp only [List.cons_append, scanFrac, if_neg hdot]
        rw [← List.cons_append]
        rw [scanExp_full_append (e := (scanExp (d :: r)).1) (Prod.ext rfl hrest) hu]
        rw [if_neg (by simpa using hc1)]
        refine congrArg some (Prod.ext ?_ rfl)
        rw [← hval, hdr]
        simp only [scanFrac, if_neg hdot]

/-- A failed decimal magnitude still fails when whitespace-headed text
follows. -/
lemma scanDecMagnitude_none_append {t u : List Char}
    (h : scanDecMagnitude t = none) (hu : wsHeaded u) :
    scanDecMagnitude (t ++ u) = none := by
  simp only [scanDecMagnitude] at h
  by_cases hc1 : (takeDigits t).1 = [] ∧ (scanFrac (takeDigits t).2).1 = []
  · simp only [scanDecMagnitude]
    obtain ⟨hip1, hfp1⟩ := hc1
    have hip : takeDigits t = ([], t) := by
      have hsp := takeDigits_spine t
      rw [hip1] at hsp
      exact Prod.ext hip1 (by simpa using hsp)
    rw [hip] at hfp1
    simp only at hfp1
    by_cases hsp2 : t = []
    · rw [hsp2]
      simp only [List.nil_append]
      rw [takeDigits_wsHeaded hu, scanFrac_wsHeaded hu]
      simp
    · obtain ⟨d, r, hdr⟩ : ∃ d r, t = d :: r := by
        cases hh : t with
        | nil => exact absurd hh hsp2
        | cons d r => exact ⟨d, r, rfl⟩
      have hd_nd : d.isDigit = false := by
        by_contra hb
        rw [Bool.not_eq_false] at hb
        rw [hdr] at hip
        simp [takeDigits, hb] at hip
      rw [hdr]
      simp only [List.cons_append]
      rw [show takeDigits (d :: (r ++ u)) = ([], d :: (r ++ u)) by
        simp [takeDigits, hd_nd]]
      rw [hdr] at hfp1
      by_cases hdot : d = '.'
      · simp only [scanFrac, if_pos hdot] at hfp1
        simp only [scanFrac, if_pos hdot]
        have hfr : takeDigits r = ([], r) := by
          have hsp := takeDigits_spine r
          rw [hfp1] at hsp
          exact Prod.ext hfp1 (by simpa using hsp)
        by_cases hr : r = []
        · subst hr
          rw [List.nil_append, takeDigits_wsHeaded hu]
          simp
        · rw [takeDigits_append, hfr]
          simp [hr]
      · simp only [scanFrac, if_neg hdot]
        simp
  · rw [if_neg hc1] at h
    exact absurd h (by simp)

/-- A fully consumed hexadecimal magnitude scans to the same value when
whitespace-headed text follows, leaving exactly that text. -/
lemma scanHexMagnitude_full_append {t u : List Char} {x : ℚ}
    (h : scanHexMagnitude t = some (x, [])) (hu : wsHeaded u) :
    scanHexMagnitude (t ++ u) = some (x, u) := by
  simp only [scanHexMagnitude] at h
  by_cases hc1 : (takeHexDigits t).1 = [] ∧ (scanHexFrac (takeHexDigits t).2).1 = []
  · rw [if_pos hc1] at h; exact absurd h (by simp)
  · rw [if_neg hc1] at h
    simp only [Option.some.injEq, Prod.mk.injEq] at h
    obtain ⟨hval, hrest⟩ := h
    simp only [scanHexMagnitude]
    by_cases hip2 : (takeHexDigits t).2 = []
    · rw [takeHexDigits_append, if_pos hip2, takeHexDigits_wsHeaded hu]
      rw [hip2] at hc1
      rw [scanHexFrac_wsHeaded hu, scanPExp_wsHeaded hu]
      simp only [List.append_nil]
      rw [if_neg (by simpa [scanHexFrac] using hc1)]
      refine congrArg some (Prod.ext ?_ rfl)
      rw [← hval, hip2]
      simp [scanHexFrac, scanPExp]
    · rw [takeHexDigits_append, if_neg hip2]
      obtain ⟨d, r, hdr⟩ : ∃ d r, (takeHexDigits t).2 = d :: r := by
        cases hh : (takeHexDigits t).2 with
        | nil => exact absurd hh hip2
        | cons d r => exact ⟨d, r, rfl⟩
      rw [hdr]
      rw [hdr] at hc1 hrest
      by_cases hdot : d = '.'
      · simp only [scanHexFrac, if_pos hdot] at hc1 hrest
        simp only [List.cons_append, scanHexFrac, if_pos hdot]
        by_cases hf2 : (takeHexDigits r).2 = []
        · rw [takeHexDigits_append, if_pos hf2, takeHexDigits_wsHeaded hu]
          rw [scanPExp_wsHeaded hu]
          simp only [List.append_nil]
          rw [if_neg (by simpa using hc1)]
          refine congrArg some (Prod.ext ?_ rfl)
          rw [← hval, hdr]
          simp only [scanHexFrac, if_pos hdot]
          rw [hf2]
          simp [scanPExp]
        · rw [takeHexDigits_append, if_neg hf2]
          rw [scanPExp_full_append (e := (scanPExp (takeHexDigits r).2).1)
            (Prod.ext rfl hrest) hu]
          rw [if_neg (by simpa using hc1)]
          refine congrArg some (Prod.ext ?_ rfl)
          rw [← hval, hdr]
          simp only [scanHexFrac, if_pos hdot]
      · simp only [scanHexFrac, if_neg hdot] at hc1 hrest
        simp only [List.cons_append, scanHexFrac, if_neg hdot]
        rw [← List.cons_append]
        rw [scanPExp_full_append (e := (scanPExp (d :: r)).1) (Prod.ext rfl hrest) hu]
        rw [if_neg (by simpa using hc1)]
        refine congrArg some (Prod.ext ?_ rfl)
        rw [← hval, hdr]
        simp only [scanHexFrac, if_neg hdot]

/-- A failed hexadecimal magnitude still fails when whitespace-headed text
follows. -/
lemma scanHexMagnitude_none_append {t u : List Char}
    (h : scanHexMagnitude t = none) (hu : wsHeaded u) :
    scanHexMagnitude (t ++ u) = none := by
  simp only [scanHexMagnitude] at h
  by_cases hc1 : (takeHexDigits t).1 = [] ∧ (scanHexFrac (takeHexDigits t).2).1 = []
  · simp only [scanHexMagnitude]
    obtain ⟨hip1, hfp1⟩ := hc1
    have hip : takeHexDigits t = ([], t) := by
      have hsp := takeHexDigits_spine t
      rw [hip1] at hsp
      exact Prod.ext hip1 (by simpa using hsp)
    rw [hip] at hfp1
    simp only at hfp1
    by_cases hsp2 : t = []
    · rw [hsp2]
      simp only [List.nil_append]
      rw [takeHexDigits_wsHeaded hu, scanHexFrac_wsHeaded hu]
      simp
    · obtain ⟨d, r, hdr⟩ : ∃ d r, t = d :: r := by
        cases hh : t with
        | nil => exact absurd hh hsp2
        | cons d r => exact ⟨d, r, rfl⟩
      have hd_nd : isHexDigit d = false := by
        by_contra hb
        rw [Bool.not_eq_false] at hb
        rw [hdr] at hip
        simp [takeHexDigits, hb] at hip
      rw [hdr]
      simp only [List.cons_append]
      rw [show takeHexDigits (d :: (r ++ u)) = ([], d :: (r ++ u)) by
        simp [takeHexDigits, hd_nd]]
      rw [hdr] at hfp1
      by_cases hdot : d = '.'
      · simp only [scanHexFrac, if_pos hdot] at hfp1
        simp only [scanHexFrac, if_pos hdot]
        have hfr : takeHexDigits r = ([], r) := by
          have hsp := takeHexDigits_spine r
          rw [hfp1] at hsp
          exact Prod.ext hfp1 (by simpa using hsp)
        by_cases hr : r = []
        · subst hr
          rw [List.nil_append, takeHexDigits_wsHeaded hu]
          simp
        · rw [takeHexDigits_append, hfr]
          simp [hr]
      · simp only [scanHexFrac, if_neg hdot]
        simp
  · rw [if_neg hc1] at h
    exact absurd h (by simp)

/-- A fully consumed magnitude scans to the same value when
whitespace-headed text follows, leaving exactly that text. -/
lemma scanMagnitude_full_append {t u : List Char} {v : ℚ}
    (h : scanMagnitude t = some (v, [])) (hu : wsHeaded u) :
    scanMagnitude (t ++ u) = some (v, u) := by
  cases hinf : matchCI ['i', 'n', 'f'] t with
  | some restInf =>
    simp only [scanMagnitude, hinf] at h
    simp only [scanMagnitude, matchCI_some_append u hinf]
    cases hinity : matchCI ['i', 'n', 'i', 't', 'y'] restInf with
    | some r =>
      rw [hinity] at h
      simp only [Option.some.injEq, Prod.mk.injEq] at h
      obtain ⟨hv, hr⟩ := h
      subst hr
      rw [matchCI_some_append u hinity]
      simp [← hv]
    | none =>
      rw [hinity] at h
      simp only [Option.some.injEq, Prod.mk.injEq] at h
      obtain ⟨hv, hr⟩ := h
      subst hr
      have hin' : matchCI ['i', 'n', 'i', 't', 'y'] ([] ++ u) = none :=
        matchCI_none_ws_append u rfl hu
          (fun c hc => (isSpace_keyword hc).2.1)
      simp only [List.nil_append] at hin' ⊢
      rw [hin']
      simp [← hv]
  | none =>
    have hinf' : matchCI ['i', 'n', 'f'] (t ++ u) = none :=
      matchCI_none_ws_append u hinf hu (fun c hc => (isSpace_keyword hc).1)
    cases hnan : matchCI ['n', 'a', 'n'] t with
    | some restNan =>
      simp only [scanMagnitude, hinf, hnan] at h
      simp only [Option.some.injEq, Prod.mk.injEq] at h
      obtain ⟨hv, hr⟩ := h
      simp only [scanMagnitude, hinf', matchCI_some_append u hnan]
      rw [scanNanPayload_full_append hr hu]
      simp [← hv]
    | none =>
      have hnan' : matchCI ['n', 'a', 'n'] (t ++ u) = none :=
        matchCI_none_ws_append u hnan hu (fun c hc => (isSpace_keyword hc).2.2)
      simp only [scanMagnitude, hinf, hnan] at h
      simp only [scanMagnitude, hinf', hnan']
      by_cases hhex : isHexPrefix t = true
      · rw [if_pos hhex] at h
        rw [if_pos (by rw [isHexPrefix_ws_append hu]; exact hhex)]
        rw [List.drop_append_of_le_length (isHexPrefix_two_le hhex)]
        exact scanHexMagnitude_full_append h hu
      · rw [if_neg hhex] at h
        rw [if_neg (by rw [isHexPrefix_ws_append hu]; exact hhex)]
        exact scanDecMagnitude_full_append h hu

/-- A failed magnitude still fails when whitespace-headed text follows. -/
lemma scanMagnitude_none_append {t u : List Char}
    (h : scanMagnitude t = none) (hu : wsHeaded u) :
    scanMagnitude (t ++ u) = none := by
  cases hinf : matchCI ['i', 'n', 'f'] t with
  | some restInf =>
    simp only [scanMagnitude, hinf] at h
    cases hinity : matchCI ['i', 'n', 'i', 't', 'y'] restInf with
    | some r => rw [hinity] at h; exact absurd h (by simp)
    | none => rw [hinity] at h; exact absurd h (by simp)
  | none =>
    have hinf' : matchCI ['i', 'n', 'f'] (t ++ u) = none :=
      matchCI_none_ws_append u hinf hu (fun c hc => (isSpace_keyword hc).1)
    cases hnan : matchCI ['n', 'a', 'n'] t with
    | some restNan =>
      simp only [scanMagnitude, hinf, hnan] at h
      exact absurd h (by simp)
    | none =>
      have hnan' : matchCI ['n', 'a', 'n'] (t ++ u) = none :=
        matchCI_none_ws_append u hnan hu (fun c hc => (isSpace_keyword hc).2.2)
      simp only [scanMagnitude, hinf, hnan] at h
      simp only [scanMagnitude, hinf', hnan']
      by_cases hhex : isHexPrefix t = true
      · rw [if_pos hhex] at h
        rw [if_pos (by rw [isHexPrefix_ws_append hu]; exact hhex)]
        rw [List.drop_append_of_le_length (isHexPrefix_two_le hhex)]
        exact scanHexMagnitude_none_append h hu
      · rw [if_neg hhex] at h
        rw [if_neg (by rw [isHexPrefix_ws_append hu]; exact hhex)]
        exact scanDecMagnitude_none_append h hu

/-- A whitespace-headed input is not a float. -/
lemma scanFloat_ws_head {c : Char} {l : List Char} (hc : isSpace c = true) :
    scanFloat (c :: l) = none := by
  obtain ⟨hd, hm, hp, hdot, -, -⟩ := isSpace_spec hc
  obtain ⟨h0, -, -, -, -, -, -⟩ := isSpace_spec2 hc
  obtain ⟨hk1, -, hk3⟩ := isSpace_keyword hc
  have hti : c.toLower ≠ 'i' := fun h => hk1 (by rw [h]; simp)
  have htn : c.toLower ≠ 'n' := fun h => hk3 (by rw [h]; simp)
  have hsign : scanSign (c :: l) = (1, c :: l) := by simp [scanSign, hm, hp]
  have hinf : matchCI ['i', 'n', 'f'] (c :: l) = none := by simp [matchCI, hti]
  have hnan : matchCI ['n', 'a', 'n'] (c :: l) = none := by simp [matchCI, htn]
  have hhexp : isHexPrefix (c :: l) = false := by
    cases l with
    | nil => rfl
    | cons c1 l1 =>
      cases l1 with
      | nil => rfl
      | cons c2 l2 => simp [isHexPrefix, h0]
  have hdec : scanDecMagnitude (c :: l) = none := by
    simp [scanDecMagnitude, takeDigits, hd, scanFrac, hdot]
  simp [scanFloat, hsign, scanMagnitude, hinf, hnan, hhexp, hdec]

/-- The empty input is not a float. -/
lemma scanFloat_nil : scanFloat ([] : List Char) = none := by decide

/-- A successful float scan starts at a non-whitespace character. -/
lemma scanFloat_head_not_space {t : List Char} {r : ℚ × List Char}
    (h : scanFloat t = some r) : t ≠ [] ∧ isSpace t.headI = false := by
  cases t with
  | nil => rw [scanFloat_nil] at h; exact absurd h (by simp)
  | cons c l =>
    refine ⟨by simp, ?_⟩
    by_contra hb
    rw [Bool.not_eq_false] at hb
    have hb' : isSpace c = true := by simpa using hb
    rw [scanFloat_ws_head hb'] at h
    exact absurd h (by simp)

/-- `skipWs` removes a leading whitespace run. -/
lemma skipWs_append_wsrun {w : List Char} (u : List Char)
    (hw : ∀ c ∈ w, isSpace c = true) : skipWs (w ++ u) = skipWs u := by
  induction w with
  | nil => rfl
  | cons c r ih =>
    simp only [List.cons_append, skipWs, if_pos (hw c (by simp))]
    exact ih (fun c hc => hw c (by simp [hc]))

/-- `skipWs` of a pure whitespace run is empty. -/
lemma skipWs_wsrun {w : List Char} (hw : ∀ c ∈ w, isSpace c = true) :
    skipWs w = [] := by
  have := skipWs_append_wsrun (w := w) [] hw
  simpa using this

/-- `skipWs` is the identity on input with a non-whitespace head. -/
lemma skipWs_of_head_false {t : List Char} (hne : t ≠ [])
    (h : isSpace t.headI = false) : skipWs t = t := by
  cases t with
  | nil => rfl
  | cons c r => simp only [List.headI] at h; simp [skipWs, h]

/-- A nonempty whitespace run followed by anything is whitespace-headed. -/
lemma wsHeaded_append_left {w : List Char} (u : List Char)
    (hw : ∀ c ∈ w, isSpace c = true) (hne : w ≠ []) : wsHeaded (w ++ u) := by
  cases w with
  | nil => exact absurd rfl hne
  | cons c r => exact Or.inr (by simpa using hw c (by simp))

/-- A whitespace run is whitespace-headed. -/
lemma wsHeaded_of_wsrun {w : List Char} (hw : ∀ c ∈ w, isSpace c = true) :
    wsHeaded w := by
  cases w with
  | nil => exact Or.inl rfl
  | cons c r => exact Or.inr (by simpa using hw c (by simp))

/-- Maximal munch stops at whitespace: a fully consumed float scans to the
same value, leaving exactly the appended whitespace-headed text. -/
lemma scanFloat_full_append {t u : List Char} {x : ℚ}
    (h : scanFloat t = some (x, [])) (hu : wsHeaded u) :
    scanFloat (t ++ u) = some (x, u) := by
  have htne : t ≠ [] := (scanFloat_head_not_space h).1
  simp only [scanFloat] at h
  cases hm : scanMagnitude (scanSign t).2 with
  | none => rw [hm] at h; exact absurd h (by simp)
  | some p =>
    obtain ⟨v, r⟩ := p
    rw [hm] at h
    simp only [Option.some.injEq, Prod.mk.injEq] at h
    obtain ⟨hx, hr⟩ := h
    subst hr
    simp only [scanFloat, scanSign_append u htne]
    rw [scanMagnitude_full_append hm hu]
    subst hx
    rfl

/-- Maximal munch cannot recover across whitespace: a failed float scan
still fails when whitespace-headed text follows. -/
lemma scanFloat_none_append {t u : List Char} (h : scanFloat t = none)
    (htne : t ≠ []) (hu : wsHeaded u) : scanFloat (t ++ u) = none := by
  simp only [scanFloat] at h
  cases hm : scanMagnitude (scanSign t).2 with
  | some p =>
    rw [hm] at h
    exact absurd h (by simp)
  | none =>
    simp only [scanFloat, scanSign_append u htne]
    rw [scanMagnitude_none_append hm hu]

/-! ### Vertex-line parsing: C2 -/

/-- C2 counterexample: on the line `v 1 2 3 4` the remainder decomposes into
four whitespace-separated floating-point tokens — not three — yet
`ParseVertex` succeeds and stores the vertex `(1, 2, 3)` (the fourth token
is ignored by `sscanf`), contradicting the claim that any token count other
than three is an invalid-vertex-format failure. -/
theorem C2_counterexample :
    ParseVertex ['v', ' ', '1', ' ', '2', ' ', '3', ' ', '4'] (resetModel "cex") =
        .ok { resetModel "cex" with vertices := [(1, 2, 3)] } ∧
      (splitWs (['v', ' ', '1', ' ', '2', ' ', '3', ' ', '4'].drop 2)).length = 4 ∧
      (splitWs (['v', ' ', '1', ' ', '2', ' ', '3', ' ', '4'].drop 2)).all
        isFloatTok = true := by
  refine ⟨?_, by decide, by decide⟩
  norm_num +decide [ParseVertex, sscanfVFFF, sscanfAux1, sscanfAux2, sscanfAux3,
    skipWs, scanFloat, scanSign, scanMagnitude, matchCI, isHexPrefix,
    scanDecMagnitude, takeDigits, scanFrac, scanExp, digitsVal,
    fracVal, isSpace, resetModel,
    show ('1' : Char).toNat = 49 from rfl, show ('2' : Char).toNat = 50 from rfl,
    show ('3' : Char).toNat = 51 from rfl, show ('4' : Char).toNat = 52 from rfl]

/-- C2 (amended): a `v `-line yields a vertex exactly when three floats can
be scanned from it in sequence.  (1) For every `v `-line, the parse
succeeds iff three successive `scanFloat`s — each after skipping leading
whitespace — succeed on the remainder; (2) on success the three scanned
values are stored and everything after the third scan is ignored; (3) on
failure the result is exactly the invalid-vertex-format error.  Concrete
shapes: (4) when the remainder is whitespace, a full float token,
whitespace, a full float token, whitespace, and then any float-prefixed
text, the parse succeeds with the three scanned values — so exactly three
float tokens are accepted, but so are extra trailing tokens, which are
ignored; (5) a remainder of exactly two float tokens is an
invalid-vertex-format failure; (6) a remainder whose first token is not
float-prefixed is an invalid-vertex-format failure.  Concrete lines:
(7) `v 1.5+2 3` succeeds with values `(3/2, 2, 3)` — the second scan
crosses a token boundary; (8) `v 1` fails; (9) `v 1 2 x` fails at the
third conversion; (10) `v inf 1 2` succeeds — `%f` accepts the infinity
subject sequence. -/
theorem C2_amended_vertex_line_parsing :
    (∀ (rest : List Char) (m : ModelQ),
        (∃ m', ParseVertex ('v' :: ' ' :: rest) m = .ok m') ↔
          ∃ (x : ℚ) (r1 : List Char) (y : ℚ) (r2 : List Char) (z : ℚ)
            (r3 : List Char),
            scanFloat (skipWs rest) = some (x, r1) ∧
              scanFloat (skipWs r1) = some (y, r2) ∧
              scanFloat (skipWs r2) = some (z, r3)) ∧
      (∀ (rest : List Char) (m : ModelQ) (x y z : ℚ) (r1 r2 r3 : List Char),
        scanFloat (skipWs rest) = some (x, r1) →
        scanFloat (skipWs r1) = some (y, r2) →
        scanFloat (skipWs r2) = some (z, r3) →
        ParseVertex ('v' :: ' ' :: rest) m =
          .ok { m with vertices := m.vertices ++ [(x, y, z)] }) ∧
      (∀ (rest : List Char) (m : ModelQ),
        (¬ ∃ m', ParseVertex ('v' :: ' ' :: rest) m = .ok m') →
        ParseVertex ('v' :: ' ' :: rest) m = .error "Invalid vertex format") ∧
      (∀ (w0 t0 w1 t1 w2 u : List Char) (x y z : ℚ) (r : List Char) (m : ModelQ),
        (∀ c ∈ w0, isSpace c = true) →
        scanFloat t0 = some (x, []) →
        (∀ c ∈ w1, isSpace c = true) → w1 ≠ [] →
        scanFloat t1 = some (y, []) →
        (∀ c ∈ w2, isSpace c = true) → w2 ≠ [] →
        scanFloat u = some (z, r) →
        ParseVertex ('v' :: ' ' :: (w0 ++ (t0 ++ (w1 ++ (t1 ++ (w2 ++ u)))))) m =
          .ok { m with vertices := m.vertices ++ [(x, y, z)] }) ∧
      (∀ (w0 t0 w1 t1 w3 : List Char) (x y : ℚ) (m : ModelQ),
        (∀ c ∈ w0, isSpace c = true) →
        scanFloat t0 = some (x, []) →
        (∀ c ∈ w1, isSpace c = true) → w1 ≠ [] →
        scanFloat t1 = some (y, []) →
        (∀ c ∈ w3, isSpace c = true) →
        ParseVertex ('v' :: ' ' :: (w0 ++ (t0 ++ (w1 ++ (t1 ++ w3))))) m =
          .error "Invalid vertex format") ∧
      (∀ (w0 t0 v : List Char) (m : ModelQ),
        (∀ c ∈ w0, isSpace c = true) →
        t0 ≠ [] → isSpace t0.headI = false →
        scanFloat t0 = none →
        (v = [] ∨ isSpace v.headI = true) →
        ParseVertex ('v' :: ' ' :: (w0 ++ (t0 ++ v))) m =
          .error "Invalid vertex format") ∧
      ParseVertex ['v', ' ', '1', '.', '5', '+', '2', ' ', '3']
          (resetModel "c2") =
        .ok { resetModel "c2" with vertices := [((3 : ℚ) / 2, 2, 3)] } ∧
      ParseVertex ['v', ' ', '1'] (resetModel "c2") =
        .error "Invalid vertex format" ∧
      ParseVertex ['v', ' ', '1', ' ', '2', ' ', 'x'] (resetModel "c2") =
        .error "Invalid vertex format" ∧
      (∃ m', ParseVertex ['v', ' ', 'i', 'n', 'f', ' ', '1', ' ', '2']
          (resetModel "c2") = .ok m') := by
  have hsp : ∀ rest : List Char, skipWs (' ' :: rest) = skipWs rest :=
    fun rest => skipWs_append_wsrun (w := [' ']) rest (by decide)
  have hcore : ∀ rest : List Char,
      sscanfVFFF ('v' :: ' ' :: rest) = sscanfAux1 (skipWs rest) := by
    intro rest
    simp only [sscanfVFFF]
    rw [if_pos trivial, hsp]
  have haux1_ok : ∀ (s : List Char) (x y z : ℚ) (r1 r2 r3 : List Char),
      scanFloat s = some (x, r1) → scanFloat (skipWs r1) = some (y, r2) →
      scanFloat (skipWs r2) = some (z, r3) →
      sscanfAux1 s = (3, (x, y, z)) := by
    intro s x y z r1 r2 r3 h1 h2 h3
    simp only [sscanfAux1, h1, sscanfAux2, h2, sscanfAux3, h3]
  have haux1_count : ∀ s : List Char, (sscanfAux1 s).1 = 3 ↔
      ∃ (x : ℚ) (r1 : List Char) (y : ℚ) (r2 : List Char) (z : ℚ)
        (r3 : List Char),
        scanFloat s = some (x, r1) ∧ scanFloat (skipWs r1) = some (y, r2) ∧
          scanFloat (skipWs r2) = some (z, r3) := by
    intro s
    constructor
    · intro h
      cases h1 : scanFloat s with
      | none => simp [sscanfAux1, h1] at h
      | some p1 =>
        obtain ⟨x, r1⟩ := p1
        cases h2 : scanFloat (skipWs r1) with
        | none => simp [sscanfAux1, h1, sscanfAux2, h2] at h
        | some p2 =>
          obtain ⟨y, r2⟩ := p2
          cases h3 : scanFloat (skipWs r2) with
          | none => simp [sscanfAux1, h1, sscanfAux2, h2, sscanfAux3, h3] at h
          | some p3 =>
            obtain ⟨z, r3⟩ := p3
            exact ⟨x, r1, y, r2, z, r3, rfl, h2, h3⟩
    · rintro ⟨x, r1, y, r2, z, r3, h1, h2, h3⟩
      rw [haux1_ok s x y z r1 r2 r3 h1 h2 h3]
  have hpv : ∀ (line : List Char) (m : ModelQ),
      (∃ m', ParseVertex line m = .ok m') ↔ (sscanfVFFF line).1 = 3 := by
    intro line m
    unfold ParseVertex
    by_cases h : (sscanfVFFF line).1 = 3
    · simp [h]
    · simp [h]
  refine ⟨?_, ?_, ?_, ?_, ?_, ?_, ?_, ?_, ?_, ?_⟩
  · intro rest m
    rw [hpv ('v' :: ' ' :: rest) m, hcore rest]
    exact haux1_count (skipWs rest)
  · intro rest m x y z r1 r2 r3 h1 h2 h3
    unfold ParseVertex
    rw [hcore rest, haux1_ok _ x y z r1 r2 r3 h1 h2 h3]
    simp
  · intro rest m h
    unfold ParseVertex at h ⊢
    by_cases hc : (sscanfVFFF ('v' :: ' ' :: rest)).1 = 3
    · exact absurd ⟨_, if_pos hc⟩ h
    · rw [if_neg hc]
  · intro w0 t0 w1 t1 w2 u x y z r m hw0 ht0 hw1 hw1ne ht1 hw2 hw2ne hu
    obtain ⟨h0ne, h0h⟩ := scanFloat_head_not_space ht0
    obtain ⟨h1ne, h1h⟩ := scanFloat_head_not_space ht1
    obtain ⟨hune, huh⟩ := scanFloat_head_not_space hu
    obtain ⟨c0, t0r, rfl⟩ := List.exists_cons_of_ne_nil h0ne
    obtain ⟨c1, t1r, rfl⟩ := List.exists_cons_of_ne_nil h1ne
    have hws0 : ∀ c ∈ (' ' :: w0), isSpace c = true := by
      intro c hc
      rcases List.mem_cons.mp hc with rfl | hc
      · decide
      · exact hw0 c hc
    have hs1 : skipWs (' ' :: (w0 ++ ((c0 :: t0r) ++ (w1 ++ ((c1 :: t1r) ++ (w2 ++ u)))))) =
        (c0 :: t0r) ++ (w1 ++ ((c1 :: t1r) ++ (w2 ++ u))) := by
      rw [← List.cons_append, skipWs_append_wsrun _ hws0]
      exact skipWs_of_head_false (by simp) (by simpa using h0h)
    have hz1 : wsHeaded (w1 ++ ((c1 :: t1r) ++ (w2 ++ u))) :=
      wsHeaded_append_left _ hw1 hw1ne
    have hscan1 : scanFloat ((c0 :: t0r) ++ (w1 ++ ((c1 :: t1r) ++ (w2 ++ u)))) =
        some (x, w1 ++ ((c1 :: t1r) ++ (w2 ++ u))) := scanFloat_full_append ht0 hz1
    have hs2 : skipWs (w1 ++ ((c1 :: t1r) ++ (w2 ++ u))) =
        (c1 :: t1r) ++ (w2 ++ u) := by
      rw [skipWs_append_wsrun _ hw1]
      exact skipWs_of_head_false (by simp) (by simpa using h1h)
    have hz2 : wsHeaded (w2 ++ u) := wsHeaded_append_left _ hw2 hw2ne
    have hscan2 : scanFloat ((c1 :: t1r) ++ (w2 ++ u)) = some (y, w2 ++ u) :=
      scanFloat_full_append ht1 hz2
    have hs3 : skipWs (w2 ++ u) = u := by
      rw [skipWs_append_wsrun _ hw2]
      exact skipWs_of_head_false hune huh
    have hcount :
        sscanfVFFF ('v' :: ' ' :: (w0 ++ ((c0 :: t0r) ++ (w1 ++ ((c1 :: t1r) ++ (w2 ++ u)))))) =
          (3, (x, y, z)) := by
      simp only [sscanfVFFF]
      rw [if_pos trivial, hs1]
      simp only [sscanfAux1, hscan1]
      rw [hs2]
      simp only [sscanfAux2, hscan2]
      rw [hs3]
      simp only [sscanfAux3, hu]
    unfold ParseVertex
    rw [hcount]
    simp
  · intro w0 t0 w1 t1 w3 x y m hw0 ht0 hw1 hw1ne ht1 hw3
    obtain ⟨h0ne, h0h⟩ := scanFloat_head_not_space ht0
    obtain ⟨h1ne, h1h⟩ := scanFloat_head_not_space ht1
    obtain ⟨c0, t0r, rfl⟩ := List.exists_cons_of_ne_nil h0ne
    obtain ⟨c1, t1r, rfl⟩ := List.exists_cons_of_ne_nil h1ne
    have hws0 : ∀ c ∈ (' ' :: w0), isSpace c = true := by
      intro c hc
      rcases List.mem_cons.mp hc with rfl | hc
      · decide
      · exact hw0 c hc
    have hs1 : skipWs (' ' :: (w0 ++ ((c0 :: t0r) ++ (w1 ++ ((c1 :: t1r) ++ w3))))) =
        (c0 :: t0r) ++ (w1 ++ ((c1 :: t1r) ++ w3)) := by
      rw [← List.cons_append, skipWs_append_wsrun _ hws0]
      exact skipWs_of_head_false (by simp) (by simpa using h0h)
    have hz1 : wsHeaded (w1 ++ ((c1 :: t1r) ++ w3)) :=
      wsHeaded_append_left _ hw1 hw1ne
    have hscan1 : scanFloat ((c0 :: t0r) ++ (w1 ++ ((c1 :: t1r) ++ w3))) =
        some (x, w1 ++ ((c1 :: t1r) ++ w3)) := scanFloat_full_append ht0 hz1
    have hs2 : skipWs (w1 ++ ((c1 :: t1r) ++ w3)) = (c1 :: t1r) ++ w3 := by
      rw [skipWs_append_wsrun _ hw1]
      exact skipWs_of_head_false (by simp) (by simpa using h1h)
    have hscan2 : scanFloat ((c1 :: t1r) ++ w3) = some (y, w3) :=
      scanFloat_full_append ht1 (wsHeaded_of_wsrun hw3)
    have hs3 : skipWs w3 = [] := skipWs_wsrun hw3
    have hcount :
        sscanfVFFF ('v' :: ' ' :: (w0 ++ ((c0 :: t0r) ++ (w1 ++ ((c1 :: t1r) ++ w3))))) =
          (2, (x, y, 0)) := by
      simp only [sscanfVFFF]
      rw [if_pos trivial, hs1]
      simp only [sscanfAux1, hscan1]
      rw [hs2]
      simp only [sscanfAux2, hscan2]
      rw [hs3]
      simp only [sscanfAux3, scanFloat_nil]
    unfold ParseVertex
    rw [hcount]
    simp
  · intro w0 t0 v m hw0 h0ne h0h h0 hv
    obtain ⟨c0, t0r, rfl⟩ := List.exists_cons_of_ne_nil h0ne
    have hws0 : ∀ c ∈ (' ' :: w0), isSpace c = true := by
      intro c hc
      rcases List.mem_cons.mp hc with rfl | hc
      · decide
      · exact hw0 c hc
    have hs1 : skipWs (' ' :: (w0 ++ ((c0 :: t0r) ++ v))) = (c0 :: t0r) ++ v := by
      rw [← List.cons_append, skipWs_append_wsrun _ hws0]
      exact skipWs_of_head_false (by simp) (by simpa using h0h)
    have hscan1 : scanFloat ((c0 :: t0r) ++ v) = none :=
      scanFloat_none_append h0 (by simp) hv
    have hcount : sscanfVFFF ('v' :: ' ' :: (w0 ++ ((c0 :: t0r) ++ v))) =
        (0, (0, 0, 0)) := by
      simp only [sscanfVFFF]
      rw [if_pos trivial, hs1]
      simp only [sscanfAux1, hscan1]
    unfold ParseVertex
    rw [hcount]
    simp
  · norm_num +decide [ParseVertex, sscanfVFFF, sscanfAux1, sscanfAux2,
      sscanfAux3, skipWs, scanFloat, scanSign, scanMagnitude, matchCI,
      isHexPrefix, scanDecMagnitude, takeDigits, scanFrac, scanExp,
      digitsVal, fracVal, isSpace, resetModel,
      show ('1' : Char).toNat = 49 from rfl,
      show ('5' : Char).toNat = 53 from rfl,
      show ('2' : Char).toNat = 50 from rfl,
      show ('3' : Char).toNat = 51 from rfl]
  · norm_num +decide [ParseVertex, sscanfVFFF, sscanfAux1, sscanfAux2,
      sscanfAux3, skipWs, scanFloat, scanSign, scanMagnitude, matchCI,
      isHexPrefix, scanDecMagnitude, takeDigits, scanFrac, scanExp,
      digitsVal, fracVal, isSpace, resetModel,
      show ('1' : Char).toNat = 49 from rfl]
  · norm_num +decide [ParseVertex, sscanfVFFF, sscanfAux1, sscanfAux2,
      sscanfAux3, skipWs, scanFloat, scanSign, scanMagnitude, matchCI,
      isHexPrefix, scanDecMagnitude, takeDigits, scanFrac, scanExp,
      digitsVal, fracVal, isSpace, resetModel,
      show ('1' : Char).toNat = 49 from rfl,
      show ('2' : Char).toNat = 50 from rfl]
  · refine ⟨{ resetModel "c2" with vertices := [(0, 1, 2)] }, ?_⟩
    norm_num +decide [ParseVertex, sscanfVFFF, sscanfAux1, sscanfAux2,
      sscanfAux3, skipWs, scanFloat, scanSign, scanMagnitude, matchCI,
      scanNanPayload, isHexPrefix, scanDecMagnitude, takeDigits, scanFrac,
      scanExp, digitsVal, fracVal, isSpace, resetModel,
      show ('1' : Char).toNat = 49 from rfl,
      show ('2' : Char).toNat = 50 from rfl]

/-- Witness for the amended C2 at the line `v 1 2 3 4`. -/
theorem C2_amended_witness :
    ParseVertex ('v' :: ' ' :: ([] ++ (['1'] ++ ([' '] ++ (['2'] ++
        ([' '] ++ ['3', ' ', '4'])))))) (resetModel "w") =
      .ok { resetModel "w" with
              vertices := (resetModel "w").vertices ++ [(1, 2, 3)] } :=
  C2_amended_vertex_line_parsing.2.2.2.1 [] ['1'] [' '] ['2'] [' '] ['3', ' ', '4']
    1 2 3 [' ', '4'] (resetModel "w") (by simp)
    (by norm_num +decide [scanFloat, scanSign, scanMagnitude, matchCI,
      isHexPrefix, scanDecMagnitude, takeDigits, scanFrac, scanExp,
      digitsVal, fracVal, show ('1' : Char).toNat = 49 from rfl])
    (by decide) (by decide)
    (by norm_num +decide [scanFloat, scanSign, scanMagnitude, matchCI,
      isHexPrefix, scanDecMagnitude, takeDigits, scanFrac, scanExp,
      digitsVal, fracVal, show ('2' : Char).toNat = 50 from rfl])
    (by decide) (by decide)
    (by norm_num +decide [scanFloat, scanSign, scanMagnitude, matchCI,
      isHexPrefix, scanDecMagnitude, takeDigits, scanFrac, scanExp,
      digitsVal, fracVal, show ('3' : Char).toNat = 51 from rfl])

/-! ### Face-token parsing: C4 -/

/-- C4 counterexample: with three vertices parsed, the face line
`f 2 3 -18446744073709551615` contains a token that parses to the negative
value −(2⁶⁴ − 1), yet `std::stoul`'s unsigned wraparound turns it into 1,
the range check passes, and the line yields the polygon `[1, 2, 0]` —
contradicting the claim that a token parsing to a negative value makes the
whole face line yield no polygon. -/
theorem C4_counterexample :
    specTokenInt (stripSlash ['-', '1', '8', '4', '4', '6', '7', '4', '4', '0',
        '7', '3', '7', '0', '9', '5', '5', '1', '6', '1', '5']) =
        some (-18446744073709551615) ∧
      (-18446744073709551615 : ℤ) < 0 ∧
      ParsePolygon
          ('f' :: ' ' :: ['2', ' ', '3', ' ', '-', '1', '8', '4', '4', '6',
            '7', '4', '4', '0', '7', '3', '7', '0', '9', '5', '5', '1', '6',
            '1', '5'])
          { path_file := ""
            vertices := [(0, 0, 0), (0, 0, 0), (0, 0, 0)]
            polygons := []
            last_error := ErrorCode.kSuccess
            last_error_str := "" } =
        .ok
          ({ path_file := ""
             vertices := [(0, 0, 0), (0, 0, 0), (0, 0, 0)]
             polygons := [[1, 2, 0]]
             last_error := ErrorCode.kSuccess
             last_error_str := "" }, true) := by
  refine ⟨by decide, by decide, by rfl⟩

/-- C4 (amended): the token loop of `ParsePolygon` succeeds with index list
`ids` exactly when every token, cut at its first `/`, is read by `stoul`
(optional sign, nonempty digit run, value taken modulo 2⁶⁴ with unsigned
wraparound for a minus sign) to a value `v` with `1 ≤ v ≤ n` (`n` the
number of vertices already parsed), and then `ids` pairs each token with
its `v − 1` (the 1-based → 0-based conversion); and whenever the token loop
fails, `ParsePolygon` propagates the `Invalid face index` exception, so the
whole face line yields no polygon. -/
theorem C4_amended_face_token_parsing :
    (∀ (n : ℕ) (ts : List (List Char)) (ids : List ℕ),
        parseFaceTokens n ts = .ok ids ↔
          List.Forall₂
            (fun t i => ∃ v, stoulTok (stripSlash t) = some v ∧
              1 ≤ v ∧ v ≤ n ∧ i = v - 1) ts ids) ∧
      ∀ (l : List Char) (m : ModelQ) (e : String),
        parseFaceTokens m.vertices.length (splitWs (l.drop 2)) = .error e →
        ParsePolygon l m = .error e := by
  constructor
  · intro n ts
    induction ts with
    | nil =>
      intro ids
      simp only [parseFaceTokens, List.forall₂_nil_left_iff]
      constructor
      · rintro h
        simp only [Except.ok.injEq] at h
        exact h.symm
      · rintro rfl
        rfl
    | cons t ts ih =>
      intro ids
      cases hst : stoulTok (stripSlash t) with
      | none =>
        simp only [parseFaceTokens, hst, List.forall₂_cons_left_iff]
        constructor
        · intro h
          exact absurd h (by simp)
        · rintro ⟨i, ids', ⟨v, hv, -⟩, -, -⟩
          exact absurd hv (by simp)
      | some v =>
        simp only [parseFaceTokens, hst]
        by_cases hv : v = 0 ∨ n < v
        · rw [if_pos hv]
          simp only [List.forall₂_cons_left_iff]
          constructor
          · intro h
            exact absurd h (by simp)
          · rintro ⟨i, ids', ⟨w, hw, hw1, hwn, -⟩, -, -⟩
            rw [hst] at hw
            simp only [Option.some.injEq] at hw
            subst hw
            rcases hv with rfl | hv
            · omega
            · omega
        · rw [if_neg hv]
          push_neg at hv
          cases hpf : parseFaceTokens n ts with
          | ok rest =>
            simp only [Except.ok.injEq, List.forall₂_cons_left_iff]
            constructor
            · rintro rfl
              exact ⟨v - 1, rest, ⟨v, hst, by omega, hv.2, rfl⟩,
                (ih rest).mp hpf, rfl⟩
            · rintro ⟨i, ids', ⟨w, hw, -, -, hiw⟩, hf, rfl⟩
              rw [hst] at hw
              simp only [Option.some.injEq] at hw
              subst hw
              subst hiw
              have : parseFaceTokens n ts = .ok ids' := (ih ids').mpr hf
              rw [hpf] at this
              simp only [Except.ok.injEq] at this
              rw [this]
          | error e =>
            simp only [List.forall₂_cons_left_iff]
            constructor
            · intro h
              exact absurd h (by simp)
            · rintro ⟨i, ids', -, hf, rfl⟩
              have : parseFaceTokens n ts = .ok ids' := (ih ids').mpr hf
              rw [hpf] at this
              exact absurd this (by simp)
  · intro l m e h
    unfold ParsePolygon
    rw [h]

/-- Witness for the amended C4: the face line `f 1 2 3` against three
vertices parses to the index list `[0, 1, 2]`, and a face line with a zero
index propagates the exception out of `ParsePolygon`. -/
theorem C4_amended_witness :
    (parseFaceTokens 3 [['1'], ['2'], ['3', '/', '7']] = .ok [0, 1, 2] ∧
        List.Forall₂
          (fun t i => ∃ v, stoulTok (stripSlash t) = some v ∧
            1 ≤ v ∧ v ≤ 3 ∧ i = v - 1)
          [['1'], ['2'], ['3', '/', '7']] [0, 1, 2]) ∧
      ParsePolygon ('f' :: ' ' :: ['0'])
          { path_file := ""
            vertices := [(0, 0, 0)]
            polygons := []
            last_error := ErrorCode.kSuccess
            last_error_str := "" } =
        .error "Invalid face index" :=
  ⟨⟨by rfl,
      (C4_amended_face_token_parsing.1 3 [['1'], ['2'], ['3', '/', '7']]
        [0, 1, 2]).mp (by rfl)⟩,
    C4_amended_face_token_parsing.2 ('f' :: ' ' :: ['0'])
      { path_file := ""
        vertices := [(0, 0, 0)]
        polygons := []
        last_error := ErrorCode.kSuccess
        last_error_str := "" } "Invalid face index" (by rfl)⟩

/-! ### Transform operations: C5, C9, C10 -/

/-- C9: `Scale(factor)` with `factor ≤ 0` is an exact no-op; with
`factor > 0` it multiplies every coordinate of every vertex by `factor`;
and `Scale(k)` followed by `Scale(1/k)` for `k > 0` restores the original
coordinates (exactly, in the real model — hence within tolerance). -/
theorem C9_scale_guard_and_inverse :
    ∀ (k : ℝ) (st : Option ModelR),
      (k ≤ 0 → ScaleExecute k st = st) ∧
        (0 < k → ScaleExecute k st =
          st.map (fun m => { m with vertices := m.vertices.map (scaleVertex k) })) ∧
        (0 < k → ScaleExecute (1 / k) (ScaleExecute k st) = st) := by
  intro k st
  refine ⟨fun hk => by simp [ScaleExecute, hk], fun hk => ?_, fun hk => ?_⟩
  · rw [ScaleExecute.eq_def, if_neg (not_le.mpr hk)]
    cases st with
    | none => rfl
    | some m => rfl
  · have hk0 : k ≠ 0 := ne_of_gt hk
    have hki : ¬ (1 : ℝ) / k ≤ 0 := not_le.mpr (by positivity)
    cases st with
    | none =>
      have h0 : ScaleExecute k none = none := by
        unfold ScaleExecute
        split
        · rfl
        · rfl
      rw [h0]
      simp [ScaleExecute, hki]
    | some m =>
      have h1 : ScaleExecute k (some m) =
          some { m with vertices := m.vertices.map (scaleVertex k) } := by
        rw [ScaleExecute.eq_def, if_neg (not_le.mpr hk)]
      rw [h1]
      have hcomp : ∀ v : Vertex, scaleVertex k⁻¹ (scaleVertex k v) = v := by
        intro v
        ext <;> simp [scaleVertex] <;> field_simp
      have hkn : ¬ k ≤ 0 := not_le.mpr hk
      simp [ScaleExecute, hki, hkn, List.map_map, Function.comp_def, hcomp]

/-- Witness for C9 on a concrete mesh: `Scale(-1)` leaves the state
untouched and `Scale(2)` then `Scale(1/2)` restores it. -/
theorem C9_witness :
    ScaleExecute (-1)
        (some { path_file := "m", vertices := [⟨1, 2, 3⟩], polygons := [[0]],
                last_error := ErrorCode.kSuccess, last_error_str := "" }) =
      some { path_file := "m", vertices := [⟨1, 2, 3⟩], polygons := [[0]],
             last_error := ErrorCode.kSuccess, last_error_str := "" } ∧
    ScaleExecute (1 / 2)
        (ScaleExecute 2
          (some { path_file := "m", vertices := [⟨1, 2, 3⟩], polygons := [[0]],
                  last_error := ErrorCode.kSuccess, last_error_str := "" })) =
      some { path_file := "m", vertices := [⟨1, 2, 3⟩], polygons := [[0]],
             last_error := ErrorCode.kSuccess, last_error_str := "" } :=
  ⟨(C9_scale_guard_and_inverse (-1) _).1 (by norm_num),
    (C9_scale_guard_and_inverse 2 _).2.2 (by norm_num)⟩

/-- C10: each transform execution leaves the polygon buffer, the
last-error code and message, and the stored file path unchanged (it can
touch only the vertex buffer), and with no mesh held every transform is a
silent no-op that raises no error. -/
theorem C10_transforms_touch_only_vertices :
    ∀ (dx dy dz ax ay az k : ℝ) (st : Option ModelR),
      (MoveExecute dx dy dz st).map ModelR.polygons = st.map ModelR.polygons ∧
      (MoveExecute dx dy dz st).map ModelR.last_error = st.map ModelR.last_error ∧
      (MoveExecute dx dy dz st).map ModelR.last_error_str =
        st.map ModelR.last_error_str ∧
      (MoveExecute dx dy dz st).map ModelR.path_file = st.map ModelR.path_file ∧
      (RotateExecute ax ay az st).map ModelR.polygons = st.map ModelR.polygons ∧
      (RotateExecute ax ay az st).map ModelR.last_error = st.map ModelR.last_error ∧
      (RotateExecute ax ay az st).map ModelR.last_error_str =
        st.map ModelR.last_error_str ∧
      (RotateExecute ax ay az st).map ModelR.path_file = st.map ModelR.path_file ∧
      (ScaleExecute k st).map ModelR.polygons = st.map ModelR.polygons ∧
      (ScaleExecute k st).map ModelR.last_error = st.map ModelR.last_error ∧
      (ScaleExecute k st).map ModelR.last_error_str = st.map ModelR.last_error_str ∧
      (ScaleExecute k st).map ModelR.path_file = st.map ModelR.path_file ∧
      MoveExecute dx dy dz none = none ∧
      RotateExecute ax ay az none = none ∧
      ScaleExecute k none = none := by
  intro dx dy dz ax ay az k st
  have hsn : ScaleExecute k none = none := by
    unfold ScaleExecute
    split
    · rfl
    · rfl
  cases st with
  | none => simp [MoveExecute, RotateExecute, hsn]
  | some m =>
    by_cases hk : k ≤ 0
    · simp [MoveExecute, RotateExecute, ScaleExecute, hk, hsn]
    · simp [MoveExecute, RotateExecute, ScaleExecute, hk, hsn]

/-- C5: the code's rotation (degrees converted by π/180, zero angles
skipped bit-for-bit, X then Y then Z on the (y,z), (z,x), (x,y) pairs with
`new_a = a·cos θ − b·sin θ`, `new_b = a·sin θ + b·cos θ`) coincides with
the spec-side composition, and satisfies the three sign-convention cases:
`Rotate(90,0,0)` maps (0,1,0) to (0,0,1), `Rotate(0,90,0)` maps (0,0,1) to
(1,0,0), `Rotate(0,0,90)` maps (1,0,0) to (0,1,0); `Rotate(0,0,0)` leaves
the buffer exactly unchanged. -/
theorem C5_rotate_order_and_convention :
    (∀ (dx dy dz : ℝ) (vs : List Vertex),
        RotateVertices dx dy dz vs = vs.map (spec_rotate dx dy dz)) ∧
      RotateVertices 90 0 0 [⟨0, 1, 0⟩] = [⟨0, 0, 1⟩] ∧
      RotateVertices 0 90 0 [⟨0, 0, 1⟩] = [⟨1, 0, 0⟩] ∧
      RotateVertices 0 0 90 [⟨1, 0, 0⟩] = [⟨0, 1, 0⟩] ∧
      ∀ (vs : List Vertex), RotateVertices 0 0 0 vs = vs := by
  have hang : ∀ d : ℝ, d * (Real.pi / 180) = 0 ↔ d = 0 := by
    intro d
    constructor
    · intro h
      rcases mul_eq_zero.mp h with h | h
      · exact h
      · exact absurd h (by positivity)
    · rintro rfl
      ring
  have h90 : (90 : ℝ) * (Real.pi / 180) = Real.pi / 2 := by ring
  have hpi2 : Real.pi / 2 ≠ 0 := by positivity
  refine ⟨?_, ?_, ?_, ?_, ?_⟩
  · intro dx dy dz vs
    unfold RotateVertices
    refine List.map_congr_left fun v _ => ?_
    simp only [rotateVertex, spec_rotate, spec_rotX, spec_rotY, spec_rotZ,
      rotatePair, hang]
  · simp [RotateVertices, rotateVertex, rotatePair, h90, hpi2,
      Real.cos_pi_div_two, Real.sin_pi_div_two]
  · simp [RotateVertices, rotateVertex, rotatePair, h90, hpi2,
      Real.cos_pi_div_two, Real.sin_pi_div_two]
  · simp [RotateVertices, rotateVertex, rotatePair, h90, hpi2,
      Real.cos_pi_div_two, Real.sin_pi_div_two]
  · intro vs
    unfold RotateVertices
    simp only [zero_mul]
    have hpt : ∀ v : Vertex, rotateVertex 0 0 0 v = v := fun v => by
      simp [rotateVertex]
    induction vs with
    | nil => rfl
    | cons v vs ih => simp [hpt, ih]

/-! ### Bounding-box folds and normalization: C8, C3 -/

/-- A left fold of `min` is below its seed. -/
lemma foldl_min_le_init (xs : List ℝ) (a : ℝ) : xs.foldl min a ≤ a := by
  induction xs generalizing a with
  | nil => exact le_refl a
  | cons x xs ih => exact le_trans (ih (min a x)) (min_le_left a x)

/-- A left fold of `min` is below every list element. -/
lemma foldl_min_le_mem (xs : List ℝ) (a : ℝ) {x : ℝ} (hx : x ∈ xs) :
    xs.foldl min a ≤ x := by
  induction xs generalizing a with
  | nil => cases hx
  | cons y ys ih =>
    rcases List.mem_cons.mp hx with rfl | hx'
    · exact le_trans (foldl_min_le_init ys (min a x)) (min_le_right a x)
    · exact ih (min a y) hx'

/-- A left fold of `min` is the seed or one of the elements. -/
lemma foldl_min_mem (xs : List ℝ) (a : ℝ) : xs.foldl min a ∈ a :: xs := by
  induction xs generalizing a with
  | nil => simp
  | cons y ys ih =>
    rcases List.mem_cons.mp (ih (min a y)) with h | h
    · rcases min_choice a y with hm | hm
      · rw [List.foldl_cons, h, hm]; simp
      · rw [List.foldl_cons, h, hm]; simp
    · simp only [List.foldl_cons]
      exact List.mem_cons_of_mem _ (List.mem_cons_of_mem _ h)

/-- A left fold of `max` is above its seed. -/
lemma le_foldl_max_init (xs : List ℝ) (a : ℝ) : a ≤ xs.foldl max a := by
  induction xs generalizing a with
  | nil => exact le_refl a
  | cons x xs ih => exact le_trans (le_max_left a x) (ih (max a x))

/-- A left fold of `max` is above every list element. -/
lemma le_foldl_max_mem (xs : List ℝ) (a : ℝ) {x : ℝ} (hx : x ∈ xs) :
    x ≤ xs.foldl max a := by
  induction xs generalizing a with
  | nil => cases hx
  | cons y ys ih =>
    rcases List.mem_cons.mp hx with rfl | hx'
    · exact le_trans (le_max_right a x) (le_foldl_max_init ys (max a x))
    · exact ih (max a y) hx'

/-- A left fold of `max` is the seed or one of the elements. -/
lemma foldl_max_mem (xs : List ℝ) (a : ℝ) : xs.foldl max a ∈ a :: xs := by
  induction xs generalizing a with
  | nil => simp
  | cons y ys ih =>
    rcases List.mem_cons.mp (ih (max a y)) with h | h
    · rcases max_choice a y with hm | hm
      · rw [List.foldl_cons, h, hm]; simp
      · rw [List.foldl_cons, h, hm]; simp
    · simp only [List.foldl_cons]
      exact List.mem_cons_of_mem _ (List.mem_cons_of_mem _ h)

/-- The coordinate folds of `NormalizeModel`, lower-bound form. -/
lemma vfold_min_le {f : Vertex → ℝ} (vs : List Vertex) (a : ℝ) {u : Vertex}
    (hu : u ∈ vs) : vs.foldl (fun b v => min b (f v)) a ≤ f u := by
  rw [← List.foldl_map]
  exact foldl_min_le_mem _ _ (List.mem_map_of_mem f hu)

/-- The coordinate folds of `NormalizeModel`, upper-bound form. -/
lemma vfold_le_max {f : Vertex → ℝ} (vs : List Vertex) (a : ℝ) {u : Vertex}
    (hu : u ∈ vs) : f u ≤ vs.foldl (fun b v => max b (f v)) a := by
  rw [← List.foldl_map]
  exact le_foldl_max_mem _ _ (List.mem_map_of_mem f hu)

/-- Seeded with the head's coordinate, the min fold of `NormalizeModel`
lands on a coordinate of some vertex of the buffer. -/
lemma vfold_min_mem_map {f : Vertex → ℝ} (v0 : Vertex) (rest : List Vertex) :
    (v0 :: rest).foldl (fun b v => min b (f v)) (f v0) ∈ (v0 :: rest).map f := by
  have h : (v0 :: rest).foldl (fun b v => min b (f v)) (f v0) ∈
      f v0 :: (v0 :: rest).map f := by
    rw [← List.foldl_map]
    exact foldl_min_mem _ _
  rcases List.mem_cons.mp h with h | h
  · rw [h]
    exact List.mem_map_of_mem f (by simp)
  · exact h

/-- Seeded with the head's coordinate, the max fold of `NormalizeModel`
lands on a coordinate of some vertex of the buffer. -/
lemma vfold_max_mem_map {f : Vertex → ℝ} (v0 : Vertex) (rest : List Vertex) :
    (v0 :: rest).foldl (fun b v => max b (f v)) (f v0) ∈ (v0 :: rest).map f := by
  have h : (v0 :: rest).foldl (fun b v => max b (f v)) (f v0) ∈
      f v0 :: (v0 :: rest).map f := by
    rw [← List.foldl_map]
    exact foldl_max_mem _ _
  rcases List.mem_cons.mp h with h | h
  · rw [h]
    exact List.mem_map_of_mem f (by simp)
  · exact h

/-- C8: `NormalizeModel` on a nonempty buffer maps every vertex `v` to
`(v − center) · (1/radius)`, where `center` is the midpoint of the
axis-aligned bounding box of all vertices (genuine extrema: attained and
bounding), `radius` is half the box's diagonal length, and a radius below
1e-6 is replaced by 1; a call on an empty vertex buffer changes nothing. -/
theorem C8_normalize_is_bbox_center_and_radius :
    NormalizeModel [] = [] ∧
      ∀ (v0 : Vertex) (rest : List Vertex),
        ∃ lox hix loy hiy loz hiz r : ℝ,
          (lox ∈ (v0 :: rest).map Vertex.x ∧ hix ∈ (v0 :: rest).map Vertex.x ∧
            loy ∈ (v0 :: rest).map Vertex.y ∧ hiy ∈ (v0 :: rest).map Vertex.y ∧
            loz ∈ (v0 :: rest).map Vertex.z ∧ hiz ∈ (v0 :: rest).map Vertex.z) ∧
          (∀ v ∈ v0 :: rest, lox ≤ v.x ∧ v.x ≤ hix ∧ loy ≤ v.y ∧ v.y ≤ hiy ∧
            loz ≤ v.z ∧ v.z ≤ hiz) ∧
          r = Real.sqrt ((hix - lox) ^ 2 + (hiy - loy) ^ 2 + (hiz - loz) ^ 2) / 2 ∧
          NormalizeModel (v0 :: rest) =
            (v0 :: rest).map (fun v =>
              { x := (v.x - (lox + hix) / 2) * (1 / if r < 1e-6 then 1 else r)
                y := (v.y - (loy + hiy) / 2) * (1 / if r < 1e-6 then 1 else r)
                z := (v.z - (loz + hiz) / 2) * (1 / if r < 1e-6 then 1 else r) }) := by
  refine ⟨rfl, fun v0 rest => ?_⟩
  refine ⟨(v0 :: rest).foldl (fun a v => min a v.x) v0.x,
    (v0 :: rest).foldl (fun a v => max a v.x) v0.x,
    (v0 :: rest).foldl (fun a v => min a v.y) v0.y,
    (v0 :: rest).foldl (fun a v => max a v.y) v0.y,
    (v0 :: rest).foldl (fun a v => min a v.z) v0.z,
    (v0 :: rest).foldl (fun a v => max a v.z) v0.z,
    Real.sqrt
        (((v0 :: rest).foldl (fun a v => max a v.x) v0.x -
            (v0 :: rest).foldl (fun a v => min a v.x) v0.x) *
          ((v0 :: rest).foldl (fun a v => max a v.x) v0.x -
            (v0 :: rest).foldl (fun a v => min a v.x) v0.x) +
          ((v0 :: rest).foldl (fun a v => max a v.y) v0.y -
            (v0 :: rest).foldl (fun a v => min a v.y) v0.y) *
          ((v0 :: rest).foldl (fun a v => max a v.y) v0.y -
            (v0 :: rest).foldl (fun a v => min a v.y) v0.y) +
          ((v0 :: rest).foldl (fun a v => max a v.z) v0.z -
            (v0 :: rest).foldl (fun a v => min a v.z) v0.z) *
          ((v0 :: rest).foldl (fun a v => max a v.z) v0.z -
            (v0 :: rest).foldl (fun a v => min a v.z) v0.z)) * (1 / 2),
    ?_, ?_, ?_, ?_⟩
  · exact ⟨vfold_min_mem_map v0 rest, vfold_max_mem_map v0 rest,
      vfold_min_mem_map v0 rest, vfold_max_mem_map v0 rest,
      vfold_min_mem_map v0 rest, vfold_max_mem_map v0 rest⟩
  · intro v hv
    exact ⟨vfold_min_le _ _ hv, vfold_le_max _ _ hv, vfold_min_le _ _ hv,
      vfold_le_max _ _ hv, vfold_min_le _ _ hv, vfold_le_max _ _ hv⟩
  · rw [show
      (((v0 :: rest).foldl (fun a v => max a v.x) v0.x -
          (v0 :: rest).foldl (fun a v => min a v.x) v0.x) *
        ((v0 :: rest).foldl (fun a v => max a v.x) v0.x -
          (v0 :: rest).foldl (fun a v => min a v.x) v0.x) +
        ((v0 :: rest).foldl (fun a v => max a v.y) v0.y -
          (v0 :: rest).foldl (fun a v => min a v.y) v0.y) *
        ((v0 :: rest).foldl (fun a v => max a v.y) v0.y -
          (v0 :: rest).foldl (fun a v => min a v.y) v0.y) +
        ((v0 :: rest).foldl (fun a v => max a v.z) v0.z -
          (v0 :: rest).foldl (fun a v => min a v.z) v0.z) *
        ((v0 :: rest).foldl (fun a v => max a v.z) v0.z -
          (v0 :: rest).foldl (fun a v => min a v.z) v0.z)) =
      (((v0 :: rest).foldl (fun a v => max a v.x) v0.x -
          (v0 :: rest).foldl (fun a v => min a v.x) v0.x) ^ 2 +
        ((v0 :: rest).foldl (fun a v => max a v.y) v0.y -
          (v0 :: rest).foldl (fun a v => min a v.y) v0.y) ^ 2 +
        ((v0 :: rest).foldl (fun a v => max a v.z) v0.z -
          (v0 :: rest).foldl (fun a v => min a v.z) v0.z) ^ 2) from by ring]
    ring
  · simp only [NormalizeModel]
    refine List.map_congr_left fun v _ => ?_
    simp only [Vertex.mk.injEq]
    exact ⟨by ring, by ring, by ring⟩

/-- A left fold of `min` over a constant list equals the constant. -/
lemma foldl_min_const (xs : List ℝ) (a : ℝ) (h : ∀ x ∈ xs, x = a) :
    xs.foldl min a = a := by
  induction xs with
  | nil => rfl
  | cons y ys ih =>
    rw [List.foldl_cons, h y (by simp), min_self]
    exact ih fun x hx => h x (by simp [hx])

/-- A left fold of `max` over a constant list equals the constant. -/
lemma foldl_max_const (xs : List ℝ) (a : ℝ) (h : ∀ x ∈ xs, x = a) :
    xs.foldl max a = a := by
  induction xs with
  | nil => rfl
  | cons y ys ih =>
    rw [List.foldl_cons, h y (by simp), max_self]
    exact ih fun x hx => h x (by simp [hx])

/-- C3 counterexample: normalizing the planar mesh with vertices (0,2,0),
(3,2,0), (1,0,0), (1,4,0) (no vertex at a bounding-box corner) yields
vertices whose centroid is (−1/10, 0, 0) and whose squared distances from
that centroid are all at most 13/20 — so the centroid-relative bounding
sphere has radius at most √(13/20) ≈ 0.806, below 1 − 10⁻³, and is not of
radius 1 within any reasonable tolerance. -/
theorem C3_counterexample :
    NormalizeModel [⟨0, 2, 0⟩, ⟨3, 2, 0⟩, ⟨1, 0, 0⟩, ⟨1, 4, 0⟩] =
        [⟨-(3/5), 0, 0⟩, ⟨3/5, 0, 0⟩, ⟨-(1/5), -(4/5), 0⟩, ⟨-(1/5), 4/5, 0⟩] ∧
      ((-(3/5) + 3/5 + -(1/5) + -(1/5)) / 4 : ℝ) = -(1/10) ∧
      ((0 + 0 + -(4/5) + 4/5) / 4 : ℝ) = 0 ∧
      (-(3/5) - -(1/10) : ℝ) ^ 2 + ((0 : ℝ) - 0) ^ 2 + ((0 : ℝ) - 0) ^ 2 ≤ 13/20 ∧
      ((3/5 : ℝ) - -(1/10)) ^ 2 + ((0 : ℝ) - 0) ^ 2 + ((0 : ℝ) - 0) ^ 2 ≤ 13/20 ∧
      (-(1/5) - -(1/10) : ℝ) ^ 2 + ((-(4/5) : ℝ) - 0) ^ 2 + ((0 : ℝ) - 0) ^ 2 ≤ 13/20 ∧
      (-(1/5) - -(1/10) : ℝ) ^ 2 + ((4/5 : ℝ) - 0) ^ 2 + ((0 : ℝ) - 0) ^ 2 ≤ 13/20 ∧
      (13/20 : ℝ) < (1 - 1/1000) ^ 2 := by
  have h25 : Real.sqrt 25 = 5 := by
    rw [show (25 : ℝ) = 5 ^ 2 by norm_num]
    exact Real.sqrt_sq (by norm_num)
  refine ⟨?_, by norm_num, by norm_num, by norm_num, by norm_num, by norm_num,
    by norm_num, by norm_num⟩
  simp only [NormalizeModel]
  norm_num [List.foldl_cons, List.foldl_nil, min_def, max_def, h25]

/-- C3 (amended): normalization never divides by zero and fits the mesh
inside the closed unit sphere centered at the origin — the origin being the
image of the bounding-box center: every normalized vertex has squared norm
at most 1.  Neither equality (a bounding sphere of radius exactly 1) nor
any centroid-relative bound is guaranteed: the counterexample exhibits a
mesh whose normalized vertices stay well inside the unit sphere about
their centroid.  And on a mesh whose vertices all coincide, every
normalized vertex is exactly the origin. -/
theorem C3_amended_normalize_fits_unit_sphere :
    (∀ (vs : List Vertex), ∀ v ∈ NormalizeModel vs,
        v.x ^ 2 + v.y ^ 2 + v.z ^ 2 ≤ 1) ∧
      ∀ (vs : List Vertex) (w : Vertex), (∀ u ∈ vs, u = w) →
        ∀ v ∈ NormalizeModel vs, v = ⟨0, 0, 0⟩ := by
  constructor
  · intro vs v hv
    cases vs with
    | nil => simp [NormalizeModel] at hv
    | cons v0 rest =>
      simp only [NormalizeModel, List.mem_map] at hv
      obtain ⟨u, hu, rfl⟩ := hv
      set mnx := (v0 :: rest).foldl (fun a v => min a v.x) v0.x with hdmnx
      set mxx := (v0 :: rest).foldl (fun a v => max a v.x) v0.x with hdmxx
      set mny := (v0 :: rest).foldl (fun a v => min a v.y) v0.y with hdmny
      set mxy := (v0 :: rest).foldl (fun a v => max a v.y) v0.y with hdmxy
      set mnz := (v0 :: rest).foldl (fun a v => min a v.z) v0.z with hdmnz
      set mxz := (v0 :: rest).foldl (fun a v => max a v.z) v0.z with hdmxz
      have hx1 : mnx ≤ u.x := by rw [hdmnx]; exact vfold_min_le _ _ hu
      have hx2 : u.x ≤ mxx := by rw [hdmxx]; exact vfold_le_max _ _ hu
      have hy1 : mny ≤ u.y := by rw [hdmny]; exact vfold_min_le _ _ hu
      have hy2 : u.y ≤ mxy := by rw [hdmxy]; exact vfold_le_max _ _ hu
      have hz1 : mnz ≤ u.z := by rw [hdmnz]; exact vfold_min_le _ _ hu
      have hz2 : u.z ≤ mxz := by rw [hdmxz]; exact vfold_le_max _ _ hu
      have hsqx : (u.x - (mnx + mxx) * (1/2)) ^ 2 ≤ ((mxx - mnx) * (1/2)) ^ 2 := by
        apply sq_le_sq' <;> [linarith; linarith]
      have hsqy : (u.y - (mny + mxy) * (1/2)) ^ 2 ≤ ((mxy - mny) * (1/2)) ^ 2 := by
        apply sq_le_sq' <;> [linarith; linarith]
      have hsqz : (u.z - (mnz + mxz) * (1/2)) ^ 2 ≤ ((mxz - mnz) * (1/2)) ^ 2 := by
        apply sq_le_sq' <;> [linarith; linarith]
      set S := (mxx - mnx) * (mxx - mnx) + (mxy - mny) * (mxy - mny) +
        (mxz - mnz) * (mxz - mnz) with hdS
      have hS : 0 ≤ S := by
        rw [hdS]
        have h1 := mul_self_nonneg (mxx - mnx)
        have h2 := mul_self_nonneg (mxy - mny)
        have h3 := mul_self_nonneg (mxz - mnz)
        linarith
      have hsum : (u.x - (mnx + mxx) * (1/2)) ^ 2 + (u.y - (mny + mxy) * (1/2)) ^ 2 +
          (u.z - (mnz + mxz) * (1/2)) ^ 2 ≤ S / 4 := by
        have hS4 : ((mxx - mnx) * (1/2)) ^ 2 + ((mxy - mny) * (1/2)) ^ 2 +
            ((mxz - mnz) * (1/2)) ^ 2 = S / 4 := by
          rw [hdS]; ring
        linarith
      set rad := Real.sqrt S * (1/2) with hdrad
      have hrad0 : 0 ≤ rad := by
        rw [hdrad]
        positivity
      have hrad2 : rad ^ 2 = S / 4 := by
        rw [hdrad, mul_pow, Real.sq_sqrt hS]
        ring
      clear hdS hdrad hdmnx hdmxx hdmny hdmxy hdmnz hdmxz
      clear hx1 hx2 hy1 hy2 hz1 hz2 hsqx hsqy hsqz hu
      clear_value mnx mxx mny mxy mnz mxz S rad
      by_cases hr : rad < 1e-6
      · rw [if_pos hr]
        have h1 : rad * rad < 1e-6 * 1e-6 := by nlinarith
        have h2 : S / 4 < 1 := by
          have h3 : rad ^ 2 = rad * rad := by ring
          have h4 : (1e-6 : ℝ) * 1e-6 ≤ 1 := by norm_num
          linarith
        have hg1 : (u.x - (mnx + mxx) * (1/2)) * (1 / (1:ℝ)) =
            u.x - (mnx + mxx) * (1/2) := by ring
        have hg2 : (u.y - (mny + mxy) * (1/2)) * (1 / (1:ℝ)) =
            u.y - (mny + mxy) * (1/2) := by ring
        have hg3 : (u.z - (mnz + mxz) * (1/2)) * (1 / (1:ℝ)) =
            u.z - (mnz + mxz) * (1/2) := by ring
        rw [hg1, hg2, hg3]
        linarith
      · rw [if_neg hr]
        have hradpos : (0 : ℝ) < rad := lt_of_lt_of_le (by norm_num) (not_lt.mp hr)
        have hd : (u.x - (mnx + mxx) * (1/2)) ^ 2 + (u.y - (mny + mxy) * (1/2)) ^ 2 +
            (u.z - (mnz + mxz) * (1/2)) ^ 2 ≤ rad ^ 2 := by
          rw [hrad2]
          exact hsum
        calc ((u.x - (mnx + mxx) * (1/2)) * (1 / rad)) ^ 2 +
              ((u.y - (mny + mxy) * (1/2)) * (1 / rad)) ^ 2 +
              ((u.z - (mnz + mxz) * (1/2)) * (1 / rad)) ^ 2
            = ((u.x - (mnx + mxx) * (1/2)) ^ 2 + (u.y - (mny + mxy) * (1/2)) ^ 2 +
                (u.z - (mnz + mxz) * (1/2)) ^ 2) * (1 / rad) ^ 2 := by ring
          _ ≤ rad ^ 2 * (1 / rad) ^ 2 := by
              exact mul_le_mul_of_nonneg_right hd (by positivity)
          _ = 1 := by field_simp
  · intro vs w hw v hv
    cases vs with
    | nil => simp [NormalizeModel] at hv
    | cons v0 rest =>
      have hv0 : v0 = w := hw v0 (by simp)
      simp only [NormalizeModel, List.mem_map] at hv
      obtain ⟨u, hu, rfl⟩ := hv
      have huw : u = w := hw u hu
      have hmap : ∀ (f : Vertex → ℝ), ∀ x ∈ (v0 :: rest).map f, x = f w := by
        intro f x hx
        obtain ⟨u', hu', rfl⟩ := List.mem_map.mp hx
        rw [hw u' hu']
      have hminx : (v0 :: rest).foldl (fun a v => min a v.x) v0.x = w.x := by
        rw [← List.foldl_map, show v0.x = w.x from congrArg Vertex.x hv0]
        exact foldl_min_const _ _ (hmap Vertex.x)
      have hmaxx : (v0 :: rest).foldl (fun a v => max a v.x) v0.x = w.x := by
        rw [← List.foldl_map, show v0.x = w.x from congrArg Vertex.x hv0]
        exact foldl_max_const _ _ (hmap Vertex.x)
      have hminy : (v0 :: rest).foldl (fun a v => min a v.y) v0.y = w.y := by
        rw [← List.foldl_map, show v0.y = w.y from congrArg Vertex.y hv0]
        exact foldl_min_const _ _ (hmap Vertex.y)
      have hmaxy : (v0 :: rest).foldl (fun a v => max a v.y) v0.y = w.y := by
        rw [← List.foldl_map, show v0.y = w.y from congrArg Vertex.y hv0]
        exact foldl_max_const _ _ (hmap Vertex.y)
      have hminz : (v0 :: rest).foldl (fun a v => min a v.z) v0.z = w.z := by
        rw [← List.foldl_map, show v0.z = w.z from congrArg Vertex.z hv0]
        exact foldl_min_const _ _ (hmap Vertex.z)
      have hmaxz : (v0 :: rest).foldl (fun a v => max a v.z) v0.z = w.z := by
        rw [← List.foldl_map, show v0.z = w.z from congrArg Vertex.z hv0]
        exact foldl_max_const _ _ (hmap Vertex.z)
      rw [hminx, hmaxx, hminy, hmaxy, hminz, hmaxz, huw]
      have h0 : ((w.x - w.x) * (w.x - w.x) + (w.y - w.y) * (w.y - w.y) +
          (w.z - w.z) * (w.z - w.z) : ℝ) = 0 := by ring
      rw [h0, Real.sqrt_zero]
      have hlt : (0 : ℝ) * (1/2) < 1e-6 := by norm_num
      rw [if_pos hlt]
      refine Vertex.ext ?_ ?_ ?_ <;> ring

end View3D
